import Mathlib

/-!
Verification of the Smart-Notification-Router event correlation and
rule-matching engine.

The TypeScript sources are shallowly embedded: JavaScript strings are lists
of characters, JSON-compatible runtime values are the inductive `JValue`
(with a constructor for JavaScript `undefined`, which the engine
distinguishes from `null`), Prisma-backed state is passed explicitly as
lists of records, and the external effects a function consults (server
state lookups, the RegExp engine, channel dispatch outcomes) are injected
as explicit parameters.  Numbers are modeled as integers: every numeric
literal the engine manipulates in the verified scenarios is integral, and
floating-point behavior is irrelevant to the claims checked here.
-/

namespace SNR

/-- JavaScript strings, modeled as lists of characters so that all string
operations compute by kernel reduction. -/
abbrev Str := List Char

/-- Conversion from Lean string literals into the model. -/
def S (s : String) : Str := s.toList

/-- ASCII lowercasing of one character, modeling `String.prototype.toLowerCase`
on the ASCII payloads the engine handles. -/
def lc (s : Str) : Str := s.map Char.toLower

/-- `needle.isPrefixOf hay` etc. come from the standard library; substring
containment models `String.prototype.includes`. -/
def strIncludes (hay needle : Str) : Bool := decide (needle <:+: hay)

/-- JavaScript whitespace test for the characters `String.prototype.trim`
strips (ASCII portion). -/
def isJsWs (c : Char) : Bool := c = ' ' ∨ c = '\t' ∨ c = '\n' ∨ c = '\r'

/-- Models `String.prototype.trim` (ASCII whitespace). -/
def trimStr (s : Str) : Str :=
  ((s.dropWhile isJsWs).reverse.dropWhile isJsWs).reverse

/-- Models `String.prototype.split(".")` for the non-empty separator `"."`:
`"a.b"` splits to `["a","b"]`, `""` to `[""]`, `".x"` to `["", "x"]`. -/
def splitOnChar (sep : Char) : Str → List Str
  | [] => [[]]
  | c :: cs =>
    let r := splitOnChar sep cs
    if c = sep then [] :: r
    else
      match r with
      | [] => [[c]]
      | h :: t => (c :: h) :: t

/-- JSON-compatible JavaScript runtime values.  `undefined` is JavaScript
`undefined` (produced by failed property lookups and by absent optional
fields), distinct from `null`.  Functions (e.g. inherited prototype
methods) are outside this universe; the engine never stores or compares
them. -/
inductive JValue where
  | undefined
  | null
  | bool (b : Bool)
  | num (n : Int)
  | str (s : Str)
  | arr (elems : List JValue)
  | obj (fields : List (Str × JValue))

/-- Constructor test for `value === null || value === undefined`. -/
def isNullish : JValue → Bool
  | .undefined => true
  | .null => true
  | _ => false

/-- A webhook payload: the top-level JSON object, as in
`payload: Record<string, unknown>`. -/
abbrev Payload := List (Str × JValue)

/-- JavaScript truthiness (`if (x)`), for the JSON-value universe:
`undefined`, `null`, `false`, `0` and `""` are falsy, everything else
(including every object and array) is truthy. -/
def jsTruthy : JValue → Bool
  | .undefined => false
  | .null => false
  | .bool b => b
  | .num n => n ≠ 0
  | .str s => s ≠ []
  | .arr _ => true
  | .obj _ => true

/-- JavaScript strict equality `===` on the values the engine compares.
Primitives compare by value.  Arrays and objects compare by reference;
in this program the two operands of every `===` always come from different
allocations (one parsed from the stored rule, one parsed from the incoming
request body), so `===` on two container operands is `false`. -/
def jsStrictEq : JValue → JValue → Bool
  | .undefined, .undefined => true
  | .null, .null => true
  | .bool a, .bool b => a = b
  | .num a, .num b => a = b
  | .str a, .str b => a = b
  | _, _ => false

/-- Decimal digits of an integer, as `String(n)` renders an integral
JavaScript number. -/
def intToStr (n : Int) : Str :=
  match n with
  | .ofNat m => Nat.toDigits 10 m
  | .negSucc m => '-' :: Nat.toDigits 10 (m + 1)

mutual

/-- JavaScript `String(value)` on the JSON-value universe: `undefined` and
`null` render as their names, booleans as `true`/`false`, numbers in
decimal, arrays join their element strings with `,` (with `null`/`undefined`
elements rendering empty, per `Array.prototype.toString`), and plain
objects render as `[object Object]`. -/
def jsToString : JValue → Str
  | .undefined => S "undefined"
  | .null => S "null"
  | .bool true => S "true"
  | .bool false => S "false"
  | .num n => intToStr n
  | .str s => s
  | .arr xs => List.intercalate [','] (jsArrElemStrs xs)
  | .obj _ => S "[object Object]"

/-- Element strings for `Array.prototype.toString`. -/
def jsArrElemStrs : List JValue → List Str
  | [] => []
  | .undefined :: vs => [] :: jsArrElemStrs vs
  | .null :: vs => [] :: jsArrElemStrs vs
  | v :: vs => jsToString v :: jsArrElemStrs vs

end

/-- `Array.prototype.includes`, which uses SameValueZero — agreeing with
`jsStrictEq` on the values compared here. -/
def jsArrayIncludes (xs : List JValue) (v : JValue) : Bool :=
  xs.any (fun x => jsStrictEq x v)

/-- Own-property lookup on a plain object; a missing key yields
`undefined`.  Payload objects in this program have distinct keys
(JSON parsing keeps one binding per key). -/
def objLookup (fields : List (Str × JValue)) (key : Str) : JValue :=
  match fields.find? (fun p => p.1 = key) with
  | some p => p.2
  | none => .undefined

/-- The canonical array index denoted by a property key, if any:
JavaScript array indexing `xs[key]` hits an element exactly when
`key = String(i)` (so `"07"` is not index 7). -/
def canonIndex (key : Str) : Option Nat :=
  if key ≠ [] ∧ key.all Char.isDigit then
    let n := key.foldl (fun acc c => 10 * acc + (c.toNat - '0'.toNat)) 0
    if Nat.toDigits 10 n = key then some n else none
  else none

/-- Array property lookup: the `length` own property, canonical indices,
`undefined` otherwise (array prototype methods are functions, outside the
modeled value universe and never accessed by the engine). -/
def arrLookup (xs : List JValue) (key : Str) : JValue :=
  if key = S "length" then .num xs.length
  else
    match canonIndex key with
    | some i => (xs.get? i).getD .undefined
    | none => .undefined

/-- `value[key]` as used in the rule-engine `getNestedValue`, which only
reaches this point when `typeof value === "object"` and `value !== null`:
so only objects and arrays are indexed. -/
def propGet (v : JValue) (key : Str) : JValue :=
  match v with
  | .obj fs => objLookup fs key
  | .arr xs => arrLookup xs key
  | _ => .undefined

/-- Loop body of the rule-engine `getNestedValue` (src/lib/rule-engine.ts):
walk the dot-separated keys, returning `undefined` as soon as the current
value is `null`/`undefined` or not of `typeof "object"`. -/
def getNestedValueGo : JValue → List Str → JValue
  | v, [] => v
  | v, k :: ks =>
    match v with
    | .null => .undefined
    | .undefined => .undefined
    | .obj fs => getNestedValueGo (objLookup fs k) ks
    | .arr xs => getNestedValueGo (arrLookup xs k) ks
    | _ => .undefined

/-- `getNestedValue` of the rule engine: resolve a dotted path against the
payload object.  Mirrors the TypeScript exactly: `path.split(".")`, then
per key the `null`/`undefined` check, the `typeof !== "object"` check, and
the indexing step. -/
def getNestedValue (payload : Payload) (path : Str) : JValue :=
  getNestedValueGo (.obj payload) (splitOnChar '.' path)

/-- Condition operators of `conditionOperatorSchema`
(src/lib/validations/webhook.ts), with the TypeScript snake_case names
rendered in camelCase. -/
inductive COp where
  | equals | notEquals | contains | notContains
  | startsWith | endsWith
  | greaterThan | lessThan | greaterThanOrEqual | lessThanOrEqual
  | isEmpty | isNotEmpty | isTrue | isFalse
  | regexMatch
  | serverIsOnline | serverIsOffline
deriving DecidableEq

/-- A leaf condition `{field, operator, value}`.  `value` is declared
`z.any().optional()` in the schema, so an absent value is JavaScript
`undefined` — represented by `JValue.undefined`. -/
structure Condition where
  field : Str
  operator : COp
  value : JValue

/-- External environment of `evaluateCondition`: the Prisma
`serverState.findUnique` lookup (`none` = server not tracked, `some b` =
tracked with `isOnline = b`) and the RegExp engine (`none` = the pattern
does not compile, `some test` = the compiled case-insensitive test). -/
structure CondEnv where
  serverStates : Str → Option Bool
  regexCompile : Str → Option (Str → Bool)

/-- `evaluateCondition` (src/lib/rule-engine.ts): evaluate one leaf
condition against a payload.  Each arm transcribes the corresponding
`switch` case of the source. -/
def evaluateCondition (env : CondEnv) (c : Condition) (payload : Payload) : Bool :=
  match c.operator with
  | .serverIsOnline =>
    match env.serverStates c.field with
    | none => false
    | some isOnline => isOnline
  | .serverIsOffline =>
    match env.serverStates c.field with
    | none => true
    | some isOnline => !isOnline
  | op =>
    let fieldValue := getNestedValue payload c.field
    match op with
    | .equals => jsStrictEq fieldValue c.value
    | .notEquals => !jsStrictEq fieldValue c.value
    | .contains =>
      match fieldValue, c.value with
      | .str f, .str v => strIncludes (lc f) (lc v)
      | .arr xs, v => jsArrayIncludes xs v
      | _, _ => false
    | .notContains =>
      match fieldValue, c.value with
      | .str f, .str v => !strIncludes (lc f) (lc v)
      | .arr xs, v => !jsArrayIncludes xs v
      | _, _ => true
    | .startsWith =>
      match fieldValue, c.value with
      | .str f, .str v => (lc v).isPrefixOf (lc f)
      | _, _ => false
    | .endsWith =>
      match fieldValue, c.value with
      | .str f, .str v => (lc v).isSuffixOf (lc f)
      | _, _ => false
    | .greaterThan =>
      match fieldValue, c.value with
      | .num f, .num v => f > v
      | _, _ => false
    | .lessThan =>
      match fieldValue, c.value with
      | .num f, .num v => f < v
      | _, _ => false
    | .greaterThanOrEqual =>
      match fieldValue, c.value with
      | .num f, .num v => f ≥ v
      | _, _ => false
    | .lessThanOrEqual =>
      match fieldValue, c.value with
      | .num f, .num v => f ≤ v
      | _, _ => false
    | .isEmpty =>
      match fieldValue with
      | .null => true
      | .undefined => true
      | .str [] => true
      | .arr [] => true
      | _ => false
    | .isNotEmpty =>
      match fieldValue with
      | .null => false
      | .undefined => false
      | .str [] => false
      | .arr [] => false
      | _ => true
    | .isTrue =>
      jsStrictEq fieldValue (.bool true) || jsStrictEq fieldValue (.str (S "true")) ||
        jsStrictEq fieldValue (.num 1)
    | .isFalse =>
      jsStrictEq fieldValue (.bool false) || jsStrictEq fieldValue (.str (S "false")) ||
        jsStrictEq fieldValue (.num 0)
    | .regexMatch =>
      match fieldValue, c.value with
      | .str f, .str v =>
        match env.regexCompile v with
        | some test => test f
        | none => false
      | _, _ => false
    | _ => false

/-- `AND`/`OR` group logic of a `ConditionGroup`. -/
inductive GroupLogic where
  | and | or
deriving DecidableEq

/-- The recursive `Condition | ConditionGroup` union, as the tagged tree
the stored JSON denotes. -/
inductive CondTree where
  | leaf (c : Condition)
  | group (logic : GroupLogic) (conditions : List CondTree)

mutual

/-- `evaluateConditionGroup` (src/lib/rule-engine.ts): evaluate every
child (the source uses `Promise.all`, with no short-circuit), then combine
with `every` for `AND` and `some` for `OR`. -/
def evaluateConditionGroup (env : CondEnv) (t : CondTree) (payload : Payload) : Bool :=
  match t with
  | .leaf c => evaluateCondition env c payload
  | .group lg cs =>
    let results := evalChildren env cs payload
    match lg with
    | .and => results.all (fun r => r = true)
    | .or => results.any (fun r => r = true)

/-- The `Promise.all(group.conditions.map(...))` result list. -/
def evalChildren (env : CondEnv) (cs : List CondTree) (payload : Payload) : List Bool :=
  match cs with
  | [] => []
  | t :: ts => evaluateConditionGroup env t payload :: evalChildren env ts payload

end

/-- `evaluateRule` (src/lib/rule-engine.ts) is a direct wrapper around the
group evaluator. -/
def evaluateRule (env : CondEnv) (conditions : CondTree) (payload : Payload) : Bool :=
  evaluateConditionGroup env conditions payload

/-- `isRuleDebounced` (src/lib/rule-engine.ts), with the rule's stored
`debounceMs`/`lastTriggered` and the clock reading passed explicitly:
no debounce window, or no recorded trigger, means not debounced; otherwise
debounced while `now - lastTriggered < debounceMs`. -/
def isRuleDebounced (debounceMs : Int) (lastTriggered : Option Int) (now : Int) : Bool :=
  if debounceMs ≤ 0 then false
  else
    match lastTriggered with
    | none => false
    | some t => now - t < debounceMs

/-- Left brace and right brace characters, named so that template strings
can be assembled explicitly. -/
def lb : Char := '\x7b'

/-- Right (closing) brace character. -/
def rb : Char := '\x7d'

/-- One attempted match of the template token regex `[^\x7d]+\x7d\x7d`
immediately after an opening double brace: the greedy run of non-`rb`
characters (at least one), which must be followed by two `rb`.  Returns
the captured path and the remaining input. -/
def tmplTakeTok (s : Str) : Option (Str × Str) :=
  if (s.takeWhile (fun c => c ≠ rb)).length = 0 then none
  else
    match s.drop (s.takeWhile (fun c => c ≠ rb)).length with
    | c1 :: c2 :: r =>
      if c1 = rb ∧ c2 = rb then some (s.takeWhile (fun c => c ≠ rb), r) else none
    | _ => none

/-- The scanner behind `processTemplate` (src/lib/rule-engine.ts):
`template.replace(/\x7b\x7b([^\x7d]+)\x7d\x7d/g, ...)` replaces each
matched token with `String(value)` when the trimmed path resolves to a
value other than `undefined`/`null`, and with the matched text itself
(i.e. leaves it unchanged) otherwise.  Unmatched characters are copied
through; after a failed match at an opening brace the scan resumes at the
next character, as the regex engine does.  The `fuel` argument makes the
recursion structural (a matched token consumes its whole extent, which is
not a syntactic tail): `fuel` bounds the remaining input length, every
recursive call strictly shrinks the input, and `processTemplate` supplies
`template.length`, so the `fuel = 0` base case is unreachable
(`processTemplateGo_fuel` below proves the result is fuel-independent for
any sufficient fuel). -/
def processTemplateGo (payload : Payload) : Nat → Str → Str
  | _, [] => []
  | 0, s => s
  | fuel + 1, c :: cs =>
    if c = lb then
      match cs with
      | [] => [c]
      | c2 :: cs2 =>
        if c2 = lb then
          match tmplTakeTok cs2 with
          | some (path, rest) =>
            (if isNullish (getNestedValue payload (trimStr path))
             then lb :: lb :: (path ++ [rb, rb])
             else jsToString (getNestedValue payload (trimStr path))) ++
              processTemplateGo payload fuel rest
          | none => c :: processTemplateGo payload fuel (c2 :: cs2)
        else c :: processTemplateGo payload fuel (c2 :: cs2)
    else c :: processTemplateGo payload fuel cs

/-- `processTemplate` (src/lib/rule-engine.ts). -/
def processTemplate (template : Str) (payload : Payload) : Str :=
  processTemplateGo payload template.length template

/-! ## Webhook delivery route (src/app/api/webhook/[uniqueUrl]/route.ts)

The rule-evaluation loop of `POST`, for the current route version with
`matchMode` support.  The loop's external interactions are injected: the
stored `conditions`/`actions` JSON for a rule is either its parsed form or
the parse error `JSON.parse` throws on it, and the per-channel outcome
list a call to `dispatchNotifications` would produce for this event is a
field of the rule record (`Except.error` modeling `dispatchNotifications`
itself throwing, e.g. on corrupt stored channel config).  The
`webhookLog`/`lastTriggered` writes do not feed back into this single
event's control flow and are not tracked. -/

/-- One element of the `NotificationResult[]` a dispatch produces;
`channelId`/`channelName` never influence the route logic and are
omitted. -/
structure NotificationResult where
  success : Bool
  error : Option Str
deriving DecidableEq

/-- `webhook.matchMode || "first_match"`. -/
inductive MatchMode where
  | firstMatch | allMatches
deriving DecidableEq

/-- A webhook's stored rule together with the injected outcomes of its
external interactions for the incoming event. -/
structure StoredRule where
  id : Str
  conditions : Except Str CondTree
  debounceMs : Int
  lastTriggered : Option Int
  actions : Except Str Unit
  dispatch : Except Str (List NotificationResult)

/-- Webhook-level status strings used by the route. -/
inductive WStatus where
  | noMatch | skipped | success | failed
deriving DecidableEq

/-- The mutable locals of the `POST` rule loop.  `errorMessage` is a
string where `[]` stands for JavaScript `null` as well as `""` (the two
are interchangeable for the route: both are falsy in the
`errorMessage ? ... : ...` update).  `examined` is ghost instrumentation
recording the ids of the rules whose loop iteration was entered, in
order; it does not influence any computed value. -/
structure LoopState where
  ruleTriggered : Option Str
  notificationSent : Bool
  status : WStatus
  errorMessage : Str
  triggeredRules : List Str
  examined : List Str
deriving DecidableEq

/-- `results.map((r) => r.error).filter(Boolean).join("; ")`. -/
def joinErrors (rs : List NotificationResult) : Str :=
  List.intercalate (S "; ")
    (rs.filterMap (fun r =>
      match r.error with
      | some e => if e = [] then none else some e
      | none => none))

/-- `errorMessage = errorMessage ? errorMessage + "; " + e : e`. -/
def appendErr (old e : Str) : Str :=
  if old = [] then e else old ++ S "; " ++ e

/-- The `catch` block of the rule loop: mark the webhook `failed`, append
the error, and in `first_match` mode stop the loop with this rule
recorded as `ruleTriggered`. -/
def ruleCatch (mode : MatchMode) (st : LoopState) (rid : Str) (e : Str) :
    LoopState × Bool :=
  let st' := { st with status := .failed, errorMessage := appendErr st.errorMessage e }
  match mode with
  | .firstMatch => ({ st' with ruleTriggered := some rid }, false)
  | .allMatches => (st', true)

/-- One iteration of the `for (const rule of webhook.rules)` loop.
Returns the updated locals and whether the loop continues (`false` models
`break`). -/
def stepRule (mode : MatchMode) (env : CondEnv) (payload : Payload) (now : Int)
    (st : LoopState) (r : StoredRule) : LoopState × Bool :=
  let st := { st with examined := st.examined ++ [r.id] }
  match r.conditions with
  | .error e => ruleCatch mode st r.id e
  | .ok tree =>
    if evaluateRule env tree payload then
      if isRuleDebounced r.debounceMs r.lastTriggered now then
        match mode with
        | .allMatches => (st, true)
        | .firstMatch =>
          ({ st with status := .skipped, errorMessage := S "Rule debounced",
                     ruleTriggered := some r.id }, false)
      else
        match r.actions with
        | .error e => ruleCatch mode st r.id e
        | .ok _ =>
          match r.dispatch with
          | .error e => ruleCatch mode st r.id e
          | .ok results =>
            let st := { st with triggeredRules := st.triggeredRules ++ [r.id] }
            let st :=
              if results.any (fun x => x.success) then
                { st with notificationSent := true,
                          status := if st.status ≠ .failed then .success else st.status }
              else
                { st with status := .failed,
                          errorMessage := appendErr st.errorMessage (joinErrors results) }
            match mode with
            | .firstMatch => ({ st with ruleTriggered := some r.id }, false)
            | .allMatches => (st, true)
    else (st, true)

/-- The rule loop itself. -/
def runRules (mode : MatchMode) (env : CondEnv) (payload : Payload) (now : Int)
    (st : LoopState) : List StoredRule → LoopState
  | [] => st
  | r :: rs =>
    match stepRule mode env payload now st r with
    | (st', true) => runRules mode env payload now st' rs
    | (st', false) => st'

/-- Initial values of the loop locals. -/
def initLoopState : LoopState :=
  { ruleTriggered := none, notificationSent := false, status := .noMatch,
    errorMessage := [], triggeredRules := [], examined := [] }

/-- The rule-evaluation phase of `POST`: run the loop over the enabled
rules (already ordered by priority by the Prisma query), then in
`all_matches` mode set `ruleTriggered` to the comma-joined fired-rule
list. -/
def processWebhookRules (mode : MatchMode) (env : CondEnv) (payload : Payload)
    (now : Int) (rules : List StoredRule) : LoopState :=
  let st := runRules mode env payload now initLoopState rules
  match mode with
  | .allMatches =>
    if st.triggeredRules ≠ [] then
      { st with ruleTriggered := some (List.intercalate (S ",") st.triggeredRules) }
    else st
  | .firstMatch => st

/-! ## Cross-entity correlation engine (src/lib/correlation-engine.ts)

Modeled for a single enabled `CorrelationRule`; the per-rule behavior is
independent across rules (each state belongs to one rule).  The payload
columns (`sourcePayload`, `targetPayload`, target metadata) never
influence control flow and are not carried; `targetSet` records that the
completing update wrote the target columns.  External interactions are
injected through `CorrEnv`: whether `JSON.parse(rule.actions)` /
`JSON.parse(rule.timeoutActions)` succeed, whether the
`dispatchNotifications` call itself throws, and whether the rule has
`timeoutActions` configured.  A dispatch event `(id, kind)` is recorded
whenever `dispatchNotifications` is invoked for the state `id`. -/

/-- Status column of a correlation state. -/
inductive CStatus where
  | waiting | completed | timeout
deriving DecidableEq

/-- A `CorrelationState` row. -/
structure CorrState where
  id : Nat
  sourceReceivedAt : Int
  expiresAt : Int
  status : CStatus
  actionTriggered : Bool
  targetSet : Bool
deriving DecidableEq

/-- The injected environment of the cross-entity engine for one rule. -/
structure CorrEnv where
  timeWindowMs : Int
  actionsParseOk : Bool
  dispatchThrows : Bool
  hasTimeoutActions : Bool
  timeoutParseOk : Bool

/-- Which action of a correlation rule a dispatch carried. -/
inductive DKind where
  | success | timeout
deriving DecidableEq

/-- A Prisma `update where id` on the state table: rewrite the matching
row(s) in place. -/
def updState (store : List CorrState) (i : Nat) (f : CorrState → CorrState) :
    List CorrState :=
  store.map (fun s => if s.id = i then f s else s)

/-- The autoincrement primary key Prisma assigns to a `create`. -/
def freshId (store : List CorrState) : Nat :=
  (store.map (fun s => s.id)).foldr max 0 + 1

/-- `completeCorrelation` (correlation-engine.ts): unconditionally update
the state to `completed` (writing the target columns), then `try` to
parse the rule's actions and dispatch them — recording `actionTriggered =
true` on success and `actionTriggered = false` in the `catch`.  Note the
function does not read `actionTriggered` before dispatching. -/
def completeCorrelation (env : CorrEnv) (store : List CorrState) (i : Nat) :
    List CorrState × List (Nat × DKind) :=
  let store1 := updState store i
    (fun s => { s with status := .completed, targetSet := true })
  if env.actionsParseOk then
    if env.dispatchThrows then
      (updState store1 i (fun s => { s with actionTriggered := false }),
       [(i, .success)])
    else
      (updState store1 i (fun s => { s with actionTriggered := true }),
       [(i, .success)])
  else
    (updState store1 i (fun s => { s with actionTriggered := false }), [])

/-- `processAsSourceWebhook` (correlation-engine.ts), one rule: create a
fresh `waiting` state expiring `timeWindowMs` after now. -/
def processAsSourceWebhook (env : CorrEnv) (now : Int) (store : List CorrState) :
    List CorrState :=
  let newState : CorrState :=
    { id := freshId store, sourceReceivedAt := now,
      expiresAt := now + env.timeWindowMs, status := .waiting,
      actionTriggered := false, targetSet := false }
  store ++ [newState]

/-- `processAsTargetWebhook` (correlation-engine.ts), one rule: fetch the
rule with its `waiting`, unexpired states included, then complete every
state in that snapshot. -/
def processAsTargetWebhook (env : CorrEnv) (now : Int) (store : List CorrState) :
    List CorrState × List (Nat × DKind) :=
  let snapshot := store.filter (fun s => s.status = .waiting ∧ now < s.expiresAt)
  snapshot.foldl
    (fun acc s =>
      let r := completeCorrelation env acc.1 s.id
      (r.1, acc.2 ++ r.2))
    (store, [])

/-- The per-state body of the cross-entity sweep loop: mark the state
`timeout`, and if the rule configures timeout actions, `try` to parse and
dispatch them, recording `actionTriggered = true` unless something threw
(the `catch` only logs). -/
def timeoutOne (env : CorrEnv) (store : List CorrState) (i : Nat) :
    List CorrState × List (Nat × DKind) :=
  let st1 := updState store i (fun t => { t with status := .timeout })
  if env.hasTimeoutActions then
    if env.timeoutParseOk then
      if env.dispatchThrows then (st1, [(i, .timeout)])
      else
        (updState st1 i (fun t => { t with actionTriggered := true }),
         [(i, .timeout)])
    else (st1, [])
  else (st1, [])

/-- `cleanupExpiredCorrelations` (correlation-engine.ts): fetch the
`waiting` states whose `expiresAt` has passed and run the timeout body on
each. -/
def cleanupExpiredCorrelations (env : CorrEnv) (now : Int)
    (store : List CorrState) : List CorrState × List (Nat × DKind) :=
  let snapshot := store.filter (fun s => s.status = .waiting ∧ s.expiresAt ≤ now)
  snapshot.foldl
    (fun acc s =>
      let r := timeoutOne env acc.1 s.id
      (r.1, acc.2 ++ r.2))
    (store, [])

/-- The operations the host application performs on one rule's state
table over time: an inbound event on the rule's source webhook, an
inbound event on its target webhook, and the expiry sweep
(`processCorrelations` performs source handling, then target handling,
then the sweep; any interleaving of these primitives is covered by a
suitable operation list). -/
inductive CorrOp where
  | sourceEvent (now : Int)
  | targetEvent (now : Int)
  | sweep (now : Int)

/-- Apply one operation to the state table, accumulating dispatch
events. -/
def corrStep (env : CorrEnv) (acc : List CorrState × List (Nat × DKind))
    (op : CorrOp) : List CorrState × List (Nat × DKind) :=
  match op with
  | .sourceEvent now => (processAsSourceWebhook env now acc.1, acc.2)
  | .targetEvent now =>
    let r := processAsTargetWebhook env now acc.1
    (r.1, acc.2 ++ r.2)
  | .sweep now =>
    let r := cleanupExpiredCorrelations env now acc.1
    (r.1, acc.2 ++ r.2)

/-- A whole history of one rule's correlation processing, from the empty
state table. -/
def corrRun (env : CorrEnv) (ops : List CorrOp) :
    List CorrState × List (Nat × DKind) :=
  ops.foldl (corrStep env) ([], [])

/-! ## Field correlation engine (src/lib/field-correlation-engine.ts)

Modeled for a single `FieldCorrelationRule` (the engine's per-rule
processing is independent; states are keyed by `ruleId`).  As with the
cross-entity engine, stored-JSON parse results and dispatch behavior are
injected; the rule's `lastTriggered` column is tracked because the
success path writes it and the debounce check reads it. -/

/-- Property access `current[key]` in the field-correlation
`getNestedValue`, which (unlike the rule-engine version) has no
`typeof === "object"` guard: strings expose `length` and character
indices via boxing; numbers and booleans have no own properties
(prototype methods are functions, outside the modeled universe and never
traversed by the engine). -/
def propGetFC (v : JValue) (key : Str) : JValue :=
  match v with
  | .obj fs => objLookup fs key
  | .arr xs => arrLookup xs key
  | .str s =>
    if key = S "length" then .num s.length
    else
      match canonIndex key with
      | some i =>
        match s.get? i with
        | some c => .str [c]
        | none => .undefined
      | none => .undefined
  | _ => .undefined

/-- Loop body of the field-correlation `getNestedValue`. -/
def getNestedValueFCGo : JValue → List Str → JValue
  | v, [] => v
  | v, k :: ks =>
    match v with
    | .null => .undefined
    | .undefined => .undefined
    | w => getNestedValueFCGo (propGetFC w k) ks

/-- `getNestedValue` of field-correlation-engine.ts: only
`null`/`undefined` stop the walk early. -/
def getNestedValueFC (payload : Payload) (path : Str) : JValue :=
  getNestedValueFCGo (.obj payload) (splitOnChar '.' path)

/-- A `FieldCorrelationRule` row, with its injected external behavior.
`matchConditions` and `expectedValues` carry the stored JSON's parse
result (`Except.error` modeling `JSON.parse` throwing on corrupt data). -/
structure FieldCorrelationRule where
  rid : Nat
  matchConditions : Except Str CondTree
  correlationField : Str
  expectedValues : Except Str (List Str)
  timeWindowMs : Int
  debounceMs : Int
  lastTriggered : Option Int
  successParseOk : Bool
  dispatchThrows : Bool
  hasTimeoutActions : Bool
  timeoutParseOk : Bool

/-- A `FieldCorrelationState` row.  `receivedValues` is the JSON object
mapping each received field value to the payload that carried it
(insertion order, as JavaScript object keys); `pendingValues` the JSON
array of still-missing values. -/
structure FieldCorrState where
  id : Nat
  ruleId : Nat
  receivedValues : List (Str × Payload)
  pendingValues : List Str
  firstReceivedAt : Int
  expiresAt : Int
  status : CStatus
  actionTriggered : Bool

/-- Prisma `update where id` on the field-correlation state table. -/
def updFState (store : List FieldCorrState) (i : Nat)
    (f : FieldCorrState → FieldCorrState) : List FieldCorrState :=
  store.map (fun s => if s.id = i then f s else s)

/-- Autoincrement id for a field-correlation state `create`. -/
def freshFId (store : List FieldCorrState) : Nat :=
  (store.map (fun s => s.id)).foldr max 0 + 1

/-- `completeCorrelation` of field-correlation-engine.ts (the field-based
one; the cross-entity engine has an unrelated function of the same name):
re-fetch the state, return if missing or `actionTriggered` is already
set, otherwise mark `completed` and `try` to parse and dispatch the
success actions — recording `actionTriggered = true` and stamping the
rule's `lastTriggered` on success, and `actionTriggered = false` in the
`catch`. -/
def completeCorrelationField (rule : FieldCorrelationRule) (now : Int)
    (store : List FieldCorrState) (i : Nat) :
    List FieldCorrState × List (Nat × DKind) × FieldCorrelationRule :=
  match store.find? (fun s => s.id = i) with
  | none => (store, [], rule)
  | some s =>
    if s.actionTriggered then (store, [], rule)
    else
      let store1 := updFState store i (fun t => { t with status := .completed })
      if rule.successParseOk then
        if rule.dispatchThrows then
          (updFState store1 i (fun t => { t with actionTriggered := false }),
           [(i, .success)], rule)
        else
          (updFState store1 i (fun t => { t with actionTriggered := true }),
           [(i, .success)], { rule with lastTriggered := some now })
      else
        (updFState store1 i (fun t => { t with actionTriggered := false }),
         [], rule)

/-- `processCorrelationValue` (field-correlation-engine.ts): join the
rule's open (`waiting`, unexpired) state if one exists — ignoring a field
value that was already received (the stored payload object is truthy, so
the `if (receivedValues[fieldValue])` test is a presence test) — or
create a fresh state; complete when `pendingValues` becomes empty. -/
def processCorrelationValue (rule : FieldCorrelationRule) (now : Int)
    (fieldValue : Str) (payload : Payload) (expectedValues : List Str)
    (store : List FieldCorrState) :
    List FieldCorrState × List (Nat × DKind) × FieldCorrelationRule :=
  match store.find? (fun s =>
      s.ruleId = rule.rid ∧ s.status = .waiting ∧ now < s.expiresAt) with
  | some existingState =>
    if (existingState.receivedValues.find? (fun p => p.1 = fieldValue)).isSome then
      (store, [], rule)
    else
      let newReceived := existingState.receivedValues ++ [(fieldValue, payload)]
      let newPending := existingState.pendingValues.filter (fun v => v ≠ fieldValue)
      let store1 := updFState store existingState.id
        (fun t => { t with receivedValues := newReceived, pendingValues := newPending })
      if newPending = [] then completeCorrelationField rule now store1 existingState.id
      else (store1, [], rule)
  | none =>
    let pending := expectedValues.filter (fun v => v ≠ fieldValue)
    let nid := freshFId store
    let newState : FieldCorrState :=
      { id := nid, ruleId := rule.rid,
        receivedValues := [(fieldValue, payload)], pendingValues := pending,
        firstReceivedAt := now, expiresAt := now + rule.timeWindowMs,
        status := .waiting, actionTriggered := false }
    let store1 := store ++ [newState]
    if pending = [] then completeCorrelationField rule now store1 nid
    else (store1, [], rule)

/-- The per-state body of the field sweep loop: mark the state `timeout`,
and if the rule configures timeout actions, `try` to parse and dispatch
them, recording `actionTriggered = true` unless something threw (the
`catch` only logs). -/
def timeoutOneF (rule : FieldCorrelationRule) (store : List FieldCorrState)
    (i : Nat) : List FieldCorrState × List (Nat × DKind) :=
  let st1 := updFState store i (fun t => { t with status := .timeout })
  if rule.hasTimeoutActions then
    if rule.timeoutParseOk then
      if rule.dispatchThrows then (st1, [(i, .timeout)])
      else
        (updFState st1 i (fun t => { t with actionTriggered := true }),
         [(i, .timeout)])
    else (st1, [])
  else (st1, [])

/-- `cleanupExpiredStates` (field-correlation-engine.ts). -/
def cleanupExpiredStates (rule : FieldCorrelationRule) (now : Int)
    (store : List FieldCorrState) : List FieldCorrState × List (Nat × DKind) :=
  let snapshot := store.filter (fun s => s.status = .waiting ∧ s.expiresAt ≤ now)
  snapshot.foldl
    (fun acc s =>
      let r := timeoutOneF rule acc.1 s.id
      (r.1, acc.2 ++ r.2))
    (store, [])

/-- How one iteration of the `processFieldCorrelations` rule loop left
the rule: the per-rule `try` caught a stored-JSON parse error, the match
conditions failed, the `if (!fieldValue)` truthiness test skipped it, the
value was outside `expectedValues`, the rule was debounced, or the event
reached `processCorrelationValue`. -/
inductive FieldOutcome where
  | parseFailed
  | conditionsNoMatch
  | fieldSkipped
  | valueNotExpected
  | debounced
  | processed
deriving DecidableEq

/-- Result of one `processFieldCorrelations` call. -/
structure FieldProcResult where
  store : List FieldCorrState
  dispatches : List (Nat × DKind)
  rule : FieldCorrelationRule
  outcome : FieldOutcome

/-- The per-rule body of `processFieldCorrelations`
(field-correlation-engine.ts), for one enabled rule: parse and evaluate
`matchConditions`; resolve `correlationField` and skip when the resolved
value is falsy (`if (!fieldValue)`); stringify it; parse
`expectedValues` and skip when the string is not among them; check the
rule-level debounce; then hand over to `processCorrelationValue`. -/
def processFieldRuleBody (env : CondEnv) (rule : FieldCorrelationRule)
    (now : Int) (payload : Payload) (store : List FieldCorrState) :
    FieldProcResult :=
  match rule.matchConditions with
  | .error _ => ⟨store, [], rule, .parseFailed⟩
  | .ok tree =>
    if evaluateConditionGroup env tree payload then
      let fieldValue := getNestedValueFC payload rule.correlationField
      if jsTruthy fieldValue then
        let fieldValueStr := jsToString fieldValue
        match rule.expectedValues with
        | .error _ => ⟨store, [], rule, .parseFailed⟩
        | .ok expectedValues =>
          if fieldValueStr ∈ expectedValues then
            if rule.debounceMs > 0 then
              match rule.lastTriggered with
              | some t =>
                if now - t < rule.debounceMs then ⟨store, [], rule, .debounced⟩
                else
                  let r := processCorrelationValue rule now fieldValueStr payload
                    expectedValues store
                  ⟨r.1, r.2.1, r.2.2, .processed⟩
              | none =>
                let r := processCorrelationValue rule now fieldValueStr payload
                  expectedValues store
                ⟨r.1, r.2.1, r.2.2, .processed⟩
            else
              let r := processCorrelationValue rule now fieldValueStr payload
                expectedValues store
              ⟨r.1, r.2.1, r.2.2, .processed⟩
          else ⟨store, [], rule, .valueNotExpected⟩
      else ⟨store, [], rule, .fieldSkipped⟩
    else ⟨store, [], rule, .conditionsNoMatch⟩

/-- `processFieldCorrelations` for one rule: the rule-loop body followed
by the trailing `cleanupExpiredStates()` call. -/
def processFieldCorrelations (env : CondEnv) (rule : FieldCorrelationRule)
    (now : Int) (payload : Payload) (store : List FieldCorrState) :
    FieldProcResult :=
  let b := processFieldRuleBody env rule now payload store
  let c := cleanupExpiredStates b.rule now b.store
  ⟨c.1, b.dispatches ++ c.2, b.rule, b.outcome⟩

/-- Operations on one field-correlation rule's state over time. -/
inductive FieldOp where
  | fieldEvent (now : Int) (payload : Payload)
  | fsweep (now : Int)

/-- Apply one operation. -/
def fieldStep (env : CondEnv)
    (acc : FieldCorrelationRule × List FieldCorrState × List (Nat × DKind))
    (op : FieldOp) :
    FieldCorrelationRule × List FieldCorrState × List (Nat × DKind) :=
  match op with
  | .fieldEvent now payload =>
    let r := processFieldCorrelations env acc.1 now payload acc.2.1
    (r.rule, r.store, acc.2.2 ++ r.dispatches)
  | .fsweep now =>
    let r := cleanupExpiredStates acc.1 now acc.2.1
    (acc.1, r.1, acc.2.2 ++ r.2)

/-- A whole history of one rule's field-correlation processing, from an
empty state table. -/
def fieldRun (env : CondEnv) (rule0 : FieldCorrelationRule)
    (ops : List FieldOp) :
    FieldCorrelationRule × List FieldCorrState × List (Nat × DKind) :=
  ops.foldl (fieldStep env) (rule0, [], [])

/-! ## Specification-side summaries

Definitions used only to state theorems: per-rule outcome classifiers for
the webhook route, canonical forms of the correlation updates, the field
correlation invariant, and dispatch counting. -/

/-- The rule's stored conditions parse and evaluate to a match. -/
def ruleMatches (env : CondEnv) (payload : Payload) (r : StoredRule) : Bool :=
  match r.conditions with
  | .error _ => false
  | .ok tree => evaluateRule env tree payload

/-- The rule either fails to parse or matches: its loop iteration does
not fall through to the next rule via the no-match path. -/
def ruleRelevant (env : CondEnv) (payload : Payload) (r : StoredRule) : Bool :=
  match r.conditions with
  | .error _ => true
  | .ok tree => evaluateRule env tree payload

/-- The rule matched, cleared debounce, and both its stored actions and
its dispatch call went through: a fired rule. -/
def ruleFired (env : CondEnv) (payload : Payload) (now : Int) (r : StoredRule) : Bool :=
  ruleMatches env payload r &&
    !isRuleDebounced r.debounceMs r.lastTriggered now &&
    r.actions.isOk && r.dispatch.isOk

/-- A fired rule at least one of whose channel dispatches succeeded. -/
def ruleFiredSuccess (env : CondEnv) (payload : Payload) (now : Int) (r : StoredRule) : Bool :=
  ruleFired env payload now r &&
    (match r.dispatch with
     | .ok results => results.any (fun x => x.success)
     | .error _ => false)

/-- The rule's loop iteration entered the `catch` block: its conditions
failed to parse, or it matched, cleared debounce, and then its actions
failed to parse or its dispatch call threw. -/
def ruleThrows (env : CondEnv) (payload : Payload) (now : Int) (r : StoredRule) : Bool :=
  !r.conditions.isOk ||
    (ruleMatches env payload r &&
      !isRuleDebounced r.debounceMs r.lastTriggered now &&
      (!r.actions.isOk || !r.dispatch.isOk))

/-- The rule's iteration set the webhook status to `failed`: it threw, or
it fired and every channel dispatch failed. -/
def ruleFailing (env : CondEnv) (payload : Payload) (now : Int) (r : StoredRule) : Bool :=
  ruleThrows env payload now r ||
    (ruleFired env payload now r &&
      !(match r.dispatch with
        | .ok results => results.any (fun x => x.success)
        | .error _ => false))

/-- The status the `first_match` loop stops with at its first relevant
rule. -/
def firstMatchStatus (now : Int) (r : StoredRule) : WStatus :=
  match r.conditions with
  | .error _ => .failed
  | .ok _ =>
    if isRuleDebounced r.debounceMs r.lastTriggered now then .skipped
    else
      match r.actions with
      | .error _ => .failed
      | .ok _ =>
        match r.dispatch with
        | .error _ => .failed
        | .ok results => if results.any (fun x => x.success) then .success else .failed

/-- Net effect of the cross-entity `completeCorrelation` on the state
row: `completed`, target columns written, `actionTriggered` true exactly
when the actions parsed and the dispatch call returned. -/
def completedUpdate (env : CorrEnv) (s : CorrState) : CorrState :=
  { s with status := .completed, targetSet := true,
           actionTriggered := env.actionsParseOk && !env.dispatchThrows }

/-- Net effect of the cross-entity sweep on one expired row. -/
def timeoutUpdate (env : CorrEnv) (s : CorrState) : CorrState :=
  { s with status := .timeout,
           actionTriggered :=
             if env.hasTimeoutActions && env.timeoutParseOk && !env.dispatchThrows
             then true else s.actionTriggered }

/-- Net effect of the field-correlation sweep on one expired row. -/
def timeoutUpdateF (rule : FieldCorrelationRule) (s : FieldCorrState) : FieldCorrState :=
  { s with status := .timeout,
           actionTriggered :=
             if rule.hasTimeoutActions && rule.timeoutParseOk && !rule.dispatchThrows
             then true else s.actionTriggered }

/-- How many dispatch events a history recorded for state `i`. -/
def dispatchCount (ds : List (Nat × DKind)) (i : Nat) : Nat :=
  (ds.filter (fun d => d.1 = i)).length

/-- The field correlation invariant of the specification:
`pendingValues ∪ keys(receivedValues) = expectedValues` as sets. -/
def fieldInv (expected : List Str) (s : FieldCorrState) : Prop :=
  ∀ x : Str, (x ∈ s.pendingValues ∨ x ∈ s.receivedValues.map Prod.fst) ↔ x ∈ expected

/-! ## Concrete instances used by counterexamples and witnesses -/

/-- A condition environment with no tracked servers and a regex engine
that rejects every pattern (any concrete choice works for the statements
that use it). -/
def envN : CondEnv := ⟨fun _ => none, fun _ => none⟩

/-- The empty `AND` group: matches every payload. -/
def matchAll : CondTree := .group .and []

/-- A rule whose stored conditions JSON is corrupt. -/
def ruleCorrupt : StoredRule :=
  ⟨S "r1", .error (S "bad json"), 0, none, .ok (), .ok [⟨true, none⟩]⟩

/-- An always-matching rule whose single channel dispatch succeeds. -/
def ruleGood : StoredRule :=
  ⟨S "r2", .ok matchAll, 0, none, .ok (), .ok [⟨true, none⟩]⟩

/-- An always-matching rule whose single channel dispatch fails. -/
def ruleBad : StoredRule :=
  ⟨S "r3", .ok matchAll, 0, none, .ok (), .ok [⟨false, some (S "boom")⟩]⟩

/-- A cross-entity environment: actions parse, dispatch returns, timeout
actions configured and parsing. -/
def ceEnv : CorrEnv := ⟨1000, true, false, true, true⟩

/-- Two waiting, unexpired states of one rule; state 1 is the older
(`sourceReceivedAt` 0 versus 5). -/
def twoWaiting : List CorrState :=
  [⟨1, 0, 100, .waiting, false, false⟩, ⟨2, 5, 100, .waiting, false, false⟩]

/-- A waiting, unexpired state whose `actionTriggered` flag is already
set. -/
def alreadyTriggered : List CorrState := [⟨1, 0, 100, .waiting, true, false⟩]

/-- A field rule expecting the strings `"0"` and `"1"` of field `x`. -/
def frZeroOne : FieldCorrelationRule :=
  ⟨7, .ok matchAll, S "x", .ok [S "0", S "1"], 1000, 0, none, true, false, true, true⟩

/-- A field rule expecting the strings `"a"` and `"b"` of field `x`. -/
def frAB : FieldCorrelationRule :=
  ⟨7, .ok matchAll, S "x", .ok [S "a", S "b"], 1000, 0, none, true, false, true, true⟩

/-- An open state of `frAB` that has already received `"a"`. -/
def openA : List FieldCorrState :=
  [⟨1, 7, [(S "a", [(S "x", .str (S "a"))])], [S "b"], 10, 1010, .waiting, false⟩]

/-- Constructor tests used to state operand-type side conditions. -/
def isStrV : JValue → Bool
  | .str _ => true
  | _ => false

/-- Is the value a number. -/
def isNumV : JValue → Bool
  | .num _ => true
  | _ => false

/-- Is the value an array. -/
def isArrV : JValue → Bool
  | .arr _ => true
  | _ => false

/-- An always-matching rule inside its debounce window at time 50. -/
def ruleDebounced : StoredRule :=
  ⟨S "r4", .ok matchAll, 1000, some 0, .ok (), .ok [⟨true, none⟩]⟩

/-- The update `processCorrelationValue` performs when it joins the open
state with a fresh value. -/
def joinUpdate (ex : FieldCorrState) (v : Str) (payload : Payload)
    (t : FieldCorrState) : FieldCorrState :=
  { t with receivedValues := ex.receivedValues ++ [(v, payload)],
           pendingValues := ex.pendingValues.filter (fun w => w ≠ v) }

/-- The fresh state `processCorrelationValue` creates when no open state
exists. -/
def createdState (rule : FieldCorrelationRule) (now : Int) (v : Str)
    (payload : Payload) (expected : List Str) (store : List FieldCorrState) :
    FieldCorrState :=
  { id := freshFId store, ruleId := rule.rid,
    receivedValues := [(v, payload)],
    pendingValues := expected.filter (fun w => w ≠ v),
    firstReceivedAt := now, expiresAt := now + rule.timeWindowMs,
    status := .waiting, actionTriggered := false }

/-- An open field state of rule 7 whose `actionTriggered` flag is
already set. -/
def fTriggered : List FieldCorrState :=
  [⟨1, 7, [(S "a", [(S "x", .str (S "a"))])], [], 0, 100, .waiting, true⟩]

/-- Sequential-safety invariant shared by both correlation engines,
over any state-row type with an id and a status: state ids are distinct,
a still-`waiting` state has never been dispatched for, every dispatch
belongs to a state whose status records it, and no state has been
dispatched for more than once. -/
def EngineInv {α : Type} (idOf : α → Nat) (statusOf : α → CStatus)
    (st : List α) (ds : List (Nat × DKind)) : Prop :=
  (st.map idOf).Nodup ∧
  (∀ s ∈ st, statusOf s = .waiting → dispatchCount ds (idOf s) = 0) ∧
  (∀ d ∈ ds, ∃ s ∈ st, idOf s = d.1 ∧
    (d.2 = DKind.success → statusOf s = .completed) ∧
    (d.2 = DKind.timeout → statusOf s = .timeout)) ∧
  (∀ i, dispatchCount ds i ≤ 1)

/-- The invariant instantiated to cross-entity state rows. -/
def CorrInv (st : List CorrState) (ds : List (Nat × DKind)) : Prop :=
  EngineInv (fun s => s.id) (fun s => s.status) st ds

/-- The invariant instantiated to field-correlation state rows. -/
def FieldTraceInv (st : List FieldCorrState) (ds : List (Nat × DKind)) : Prop :=
  EngineInv (fun s => s.id) (fun s => s.status) st ds

/-! ## Theorems -/

theorem tmplTakeTok_length {s p r : Str} (h : tmplTakeTok s = some (p, r)) :
    r.length < s.length := by
  unfold tmplTakeTok at h
  split at h
  · exact absurd h (by simp)
  · rename_i hrun
    have hle := (List.takeWhile_prefix (l := s) (fun c => decide (c ≠ rb))).length_le
    split at h
    · rename_i c1 c2 rest heq
      split at h
      · simp only [Option.some.injEq, Prod.mk.injEq] at h
        obtain ⟨-, hr⟩ := h
        have hdl : (s.drop (s.takeWhile (fun c => decide (c ≠ rb))).length).length =
            rest.length + 2 := by rw [heq]; simp
        rw [List.length_drop] at hdl
        rw [← hr]
        omega
      · exact absurd h (by simp)
    · exact absurd h (by simp)


/-- The scanner result does not depend on the fuel bound, as long as the
fuel covers the remaining input length.  This certifies that the `fuel = 0`
base case of `processTemplateGo` is unreachable from `processTemplate`. -/
theorem processTemplateGo_fuel (payload : Payload) :
    ∀ f1 f2 : Nat, ∀ s : Str, s.length ≤ f1 → s.length ≤ f2 →
      processTemplateGo payload f1 s = processTemplateGo payload f2 s := by
  intro f1
  induction f1 with
  | zero =>
    intro f2 s h1 _
    have hs : s = [] := List.eq_nil_of_length_eq_zero (Nat.le_zero.mp h1)
    subst hs
    cases f2 <;> rfl
  | succ f ih =>
    intro f2 s h1 h2
    cases s with
    | nil => cases f2 <;> rfl
    | cons c cs =>
      cases f2 with
      | zero => simp at h2
      | succ g =>
        have hcs1 : cs.length ≤ f := by simp at h1; omega
        have hcs2 : cs.length ≤ g := by simp at h2; omega
        simp only [processTemplateGo]
        by_cases hc : c = lb
        · simp only [hc, if_true]
          cases cs with
          | nil => rfl
          | cons c2 cs2 =>
            by_cases hc2 : c2 = lb
            · simp only [hc2, if_true]
              cases htok : tmplTakeTok cs2 with
              | some pr =>
                obtain ⟨path, rest⟩ := pr
                have hr := tmplTakeTok_length htok
                have hlen : cs2.length + 1 = (c2 :: cs2).length := by simp
                have h1' : rest.length ≤ f := by
                  simp only [List.length_cons] at hcs1; omega
                have h2' : rest.length ≤ g := by
                  simp only [List.length_cons] at hcs2; omega
                simp only [ih g rest h1' h2']
              | none =>
                exact congrArg _ (ih g _ (by simpa using hcs1) (by simpa using hcs2))
            · simp only [hc2, if_false]
              exact congrArg _ (ih g _ (by simpa using hcs1) (by simpa using hcs2))
        · simp only [hc, if_false]
          exact congrArg _ (ih g _ hcs1 hcs2)



/-- When the comparison value is not `undefined`, strict equality against
the `undefined` field value is false. -/
theorem jsStrictEq_undef_left {v : JValue} (hv : v ≠ .undefined) :
    jsStrictEq .undefined v = false := by
  cases v
  · exact absurd rfl hv
  all_goals rfl

/-- Claim C5 (counterexample).  The claim says a condition with a
value-bearing operator evaluates false whenever its field path does not
resolve.  But the condition schema declares `value` optional
(`z.any().optional()`), and for a stored `equals` condition with no value
the source computes `undefined === undefined`, which is `true`: on the
empty payload, the field `x` is absent yet the condition evaluates
`true`. -/
theorem c5_absent_field_cex :
    getNestedValue [] (S "x") = JValue.undefined ∧
    evaluateCondition envN ⟨S "x", .equals, .undefined⟩ [] = true :=
  ⟨rfl, rfl⟩

/-- Claim C5 (amended).  If the condition's dotted field path does not
resolve in the payload and the condition's comparison value is itself
present (not `undefined`), then `equals`, `contains` and the numeric
comparison operators evaluate false, and `is_empty` evaluates true. -/
theorem c5_absent_field (env : CondEnv) (payload : Payload) (c : Condition)
    (habs : getNestedValue payload c.field = .undefined)
    (hval : c.value ≠ .undefined) :
    ((c.operator = .equals ∨ c.operator = .contains ∨ c.operator = .greaterThan ∨
        c.operator = .lessThan ∨ c.operator = .greaterThanOrEqual ∨
        c.operator = .lessThanOrEqual) →
      evaluateCondition env c payload = false) ∧
    (c.operator = .isEmpty → evaluateCondition env c payload = true) := by
  obtain ⟨f, op, v⟩ := c
  simp only at habs hval
  constructor
  · intro hop
    rcases hop with h | h | h | h | h | h <;> subst h <;>
      simp only [evaluateCondition, habs, jsStrictEq_undef_left hval]
  · intro h
    subst h
    simp only [evaluateCondition, habs]

/-- Witness for `c5_absent_field`: a concrete `equals` condition with a
present (null) comparison value on the empty payload. -/
theorem c5_absent_field_witness :
    getNestedValue [] (S "x") = JValue.undefined ∧
    evaluateCondition envN ⟨S "x", .equals, .null⟩ [] = false :=
  ⟨rfl,
   (c5_absent_field envN [] ⟨S "x", .equals, .null⟩ rfl
      (fun h => JValue.noConfusion h)).1 (Or.inl rfl)⟩

/-- Claim C6 (counterexample).  The claim says any operator applied to
operand types it does not support returns false.  `not_contains` applied
to a numeric field value and a string comparison value — types it
supports in neither its string nor its array branch — falls through to
`return true`, not false. -/
theorem c6_type_mismatch_cex :
    getNestedValue [(S "x", .num 5)] (S "x") = JValue.num 5 ∧
    evaluateCondition envN ⟨S "x", .notContains, .str (S "a")⟩ [(S "x", .num 5)] = true :=
  ⟨rfl, rfl⟩

/-- Claim C6 (amended).  Evaluating a single condition is a total
function (it never raises), and on operand types an operator does not
support the positive operators — `contains`, `starts_with`, `ends_with`,
the numeric comparisons, and `regex_match` (including with an invalid
pattern) — return false, while the negated `not_contains` returns true. -/
theorem c6_type_mismatch (env : CondEnv) (payload : Payload) (c : Condition) :
    (c.operator = .regexMatch →
      (isStrV (getNestedValue payload c.field) = false ∨ isStrV c.value = false) →
      evaluateCondition env c payload = false) ∧
    (c.operator = .regexMatch → ∀ pat, c.value = .str pat →
      env.regexCompile pat = none → evaluateCondition env c payload = false) ∧
    (c.operator = .contains →
      (isStrV (getNestedValue payload c.field) && isStrV c.value) = false →
      isArrV (getNestedValue payload c.field) = false →
      evaluateCondition env c payload = false) ∧
    ((c.operator = .startsWith ∨ c.operator = .endsWith) →
      (isStrV (getNestedValue payload c.field) && isStrV c.value) = false →
      evaluateCondition env c payload = false) ∧
    ((c.operator = .greaterThan ∨ c.operator = .lessThan ∨
        c.operator = .greaterThanOrEqual ∨ c.operator = .lessThanOrEqual) →
      (isNumV (getNestedValue payload c.field) && isNumV c.value) = false →
      evaluateCondition env c payload = false) ∧
    (c.operator = .notContains →
      (isStrV (getNestedValue payload c.field) && isStrV c.value) = false →
      isArrV (getNestedValue payload c.field) = false →
      evaluateCondition env c payload = true) := by
  obtain ⟨f, op, v⟩ := c
  simp only
  refine ⟨?_, ?_, ?_, ?_, ?_, ?_⟩
  · intro h hmis
    subst h
    simp only [evaluateCondition]
    cases hfv : getNestedValue payload f <;> cases v <;>
      simp_all [isStrV]
  · intro h pat hv hrx
    subst h; subst hv
    simp only [evaluateCondition]
    cases hfv : getNestedValue payload f <;> simp_all [isStrV]
  · intro h hmis harr
    subst h
    simp only [evaluateCondition]
    cases hfv : getNestedValue payload f <;> cases v <;>
      simp_all [isStrV, isArrV]
  · intro h hmis
    rcases h with h | h <;> subst h <;>
      simp only [evaluateCondition] <;>
      cases hfv : getNestedValue payload f <;> cases v <;>
      simp_all [isStrV]
  · intro h hmis
    rcases h with h | h | h | h <;> subst h <;>
      simp only [evaluateCondition] <;>
      cases hfv : getNestedValue payload f <;> cases v <;>
      simp_all [isNumV]
  · intro h hmis harr
    subst h
    simp only [evaluateCondition]
    cases hfv : getNestedValue payload f <;> cases v <;>
      simp_all [isStrV, isArrV]

/-- Witness for `c6_type_mismatch`: `regex_match` against a numeric
field value, and an invalid regex pattern against a string field value,
both evaluate false. -/
theorem c6_type_mismatch_witness :
    evaluateCondition envN ⟨S "x", .regexMatch, .str (S "[")⟩ [(S "x", .num 5)] = false ∧
    evaluateCondition envN ⟨S "x", .regexMatch, .str (S "[")⟩ [(S "x", .str (S "a"))] = false :=
  ⟨(c6_type_mismatch envN [(S "x", .num 5)] ⟨S "x", .regexMatch, .str (S "[")⟩).1 rfl
     (Or.inl rfl),
   (c6_type_mismatch envN [(S "x", .str (S "a"))]
       ⟨S "x", .regexMatch, .str (S "[")⟩).2.1 rfl (S "[") rfl rfl⟩

/-- `takeWhile (≠ rb)` over a brace-free prefix stops exactly at the
closing braces. -/
theorem takeWhile_ne_rb_append (p rest : Str) (hnb : rb ∉ p) :
    (p ++ rb :: rest).takeWhile (fun c => decide (c ≠ rb)) = p := by
  induction p with
  | nil =>
    rw [List.nil_append, List.takeWhile_cons]
    simp
  | cons a p ih =>
    have ha : a ≠ rb := fun h => hnb (h ▸ List.mem_cons_self a p)
    have hp : rb ∉ p := fun h => hnb (List.mem_cons_of_mem a h)
    rw [List.cons_append, List.takeWhile_cons]
    rw [if_pos (by simp [ha])]
    rw [ih hp]

/-- The token matcher accepts exactly a brace-free nonempty run followed
by the two closing braces. -/
theorem tmplTakeTok_token (p rest : Str) (hne : p ≠ []) (hnb : rb ∉ p) :
    tmplTakeTok (p ++ rb :: rb :: rest) = some (p, rest) := by
  unfold tmplTakeTok
  rw [takeWhile_ne_rb_append p (rb :: rest) hnb]
  have hlen : p.length ≠ 0 := fun h => hne (List.eq_nil_of_length_eq_zero h)
  rw [if_neg hlen]
  rw [List.drop_left]
  simp

/-- Claim C10 (counterexample).  The claim says a token is left as the
literal `(lb)(lb)…(rb)(rb)` text exactly when the path is unresolved; the
value resolver's "not found" is `undefined`, distinct from `null` (spec
§4.1).  But the source also keeps the token when the path resolves to
`null`: on payload `{x: null}` the path `x` resolves (to `null`, not
"not found"), yet the token is left unchanged. -/
theorem c10_template_cex :
    getNestedValue [(S "x", JValue.null)] (S "x") = JValue.null ∧
    JValue.null ≠ JValue.undefined ∧
    processTemplate (lb :: lb :: (S "x" ++ [rb, rb])) [(S "x", JValue.null)] =
      lb :: lb :: (S "x" ++ [rb, rb]) :=
  ⟨rfl, fun h => JValue.noConfusion h, by decide⟩

/-- Claim C10 (amended).  For a single-token template
`(lb)(lb)path(rb)(rb)` (path nonempty and free of closing braces),
`processTemplate` yields the stringified resolver result when the trimmed
path resolves to a value other than `undefined` or `null`, and leaves the
token text unchanged exactly when the resolver yields `undefined`
("not found") or `null`; it never throws (it is a total function) and
never drops the token.  In particular `(lb)(lb)x.y(rb)(rb)` renders `"5"`
against `{x:{y:5}}` and is left unchanged against `{}`. -/
theorem c10_template (payload : Payload) (p : Str) (hne : p ≠ []) (hnb : rb ∉ p) :
    processTemplate (lb :: lb :: (p ++ [rb, rb])) payload =
      (if isNullish (getNestedValue payload (trimStr p))
       then lb :: lb :: (p ++ [rb, rb])
       else jsToString (getNestedValue payload (trimStr p))) ∧
    processTemplate (lb :: lb :: (S "x.y" ++ [rb, rb]))
      [(S "x", .obj [(S "y", .num 5)])] = S "5" ∧
    processTemplate (lb :: lb :: (S "x.y" ++ [rb, rb])) [] =
      lb :: lb :: (S "x.y" ++ [rb, rb]) := by
  refine ⟨?_, by decide, by decide⟩
  show processTemplateGo payload (lb :: lb :: (p ++ [rb, rb])).length
      (lb :: lb :: (p ++ [rb, rb])) = _
  have hlen : (lb :: lb :: (p ++ [rb, rb])).length = (p.length + 3) + 1 := by
    simp
  rw [hlen]
  have htok : tmplTakeTok (p ++ [rb, rb]) = some (p, []) :=
    tmplTakeTok_token p [] hne hnb
  have hnil : ∀ f : Nat, processTemplateGo payload f [] = [] := by
    intro f; cases f <;> rfl
  have h1 : processTemplateGo payload (p.length + 3 + 1) (lb :: lb :: (p ++ [rb, rb])) =
      (match tmplTakeTok (p ++ [rb, rb]) with
       | some (path, rest) =>
         (if isNullish (getNestedValue payload (trimStr path))
          then lb :: lb :: (path ++ [rb, rb])
          else jsToString (getNestedValue payload (trimStr path))) ++
           processTemplateGo payload (p.length + 3) rest
       | none =>
         lb :: processTemplateGo payload (p.length + 3) (lb :: (p ++ [rb, rb]))) := rfl
  rw [h1, htok]
  simp [hnil]

/-- Witness for `c10_template` at the path `x.y` and payload
`{x:{y:5}}`. -/
theorem c10_template_witness :
    (S "x.y" ≠ ([] : Str)) ∧ (rb ∉ S "x.y") ∧
    processTemplate (lb :: lb :: (S "x.y" ++ [rb, rb]))
        [(S "x", .obj [(S "y", .num 5)])] =
      (if isNullish (getNestedValue [(S "x", .obj [(S "y", .num 5)])]
          (trimStr (S "x.y")))
       then lb :: lb :: (S "x.y" ++ [rb, rb])
       else jsToString (getNestedValue [(S "x", .obj [(S "y", .num 5)])]
          (trimStr (S "x.y")))) :=
  ⟨by decide, by decide,
   (c10_template [(S "x", .obj [(S "y", .num 5)])] (S "x.y")
      (by decide) (by decide)).1⟩

/-- Claim C8 (confirmed).  When a field correlation rule has an open
(`waiting`, unexpired) state and the incoming event's correlation value is
already recorded in that state's `receivedValues`, `processCorrelationValue`
is a no-op: the state table is returned unchanged (so the value is not
double-counted, no second state is created), no dispatch occurs, and the
rule record is untouched. -/
theorem c8_repeat_value_noop (rule : FieldCorrelationRule) (now : Int)
    (v : Str) (payload : Payload) (expected : List Str)
    (store : List FieldCorrState) (ex : FieldCorrState)
    (hfind : store.find? (fun s =>
        s.ruleId = rule.rid ∧ s.status = .waiting ∧ now < s.expiresAt) = some ex)
    (hrecv : (ex.receivedValues.find? (fun q => q.1 = v)).isSome = true) :
    processCorrelationValue rule now v payload expected store = (store, [], rule) := by
  unfold processCorrelationValue
  rw [hfind]
  simp only [hrecv, if_true]

/-- Witness for `c8_repeat_value_noop`: the open state of `frAB` has
already received `"a"`; a repeated `"a"` leaves everything unchanged. -/
theorem c8_repeat_value_noop_witness :
    openA.find? (fun s =>
        s.ruleId = frAB.rid ∧ s.status = .waiting ∧ (20 : Int) < s.expiresAt) =
      some ⟨1, 7, [(S "a", [(S "x", .str (S "a"))])], [S "b"], 10, 1010,
            .waiting, false⟩ ∧
    processCorrelationValue frAB 20 (S "a") [(S "x", .str (S "a"))]
      [S "a", S "b"] openA = (openA, [], frAB) :=
  ⟨rfl,
   c8_repeat_value_noop frAB 20 (S "a") [(S "x", .str (S "a"))] [S "a", S "b"]
     openA
     ⟨1, 7, [(S "a", [(S "x", .str (S "a"))])], [S "b"], 10, 1010,
      .waiting, false⟩
     rfl rfl⟩

/-- Claim C9 (counterexample).  The claim says an event is skipped at the
field-resolution step iff the correlation field is not found or its value
is not in `expectedValues`, and that every present value whose string form
is in `expectedValues` proceeds.  But the source tests the resolved value
with JavaScript truthiness (`if (!fieldValue)`): on payload `{x: 0}` the
field `x` is present (resolves to `0`), `String(0) = "0"` is in
`expectedValues`, yet the rule is skipped at the field-resolution step. -/
theorem c9_field_resolution_cex :
    getNestedValueFC [(S "x", .num 0)] (S "x") = JValue.num 0 ∧
    jsToString (JValue.num 0) ∈ [S "0", S "1"] ∧
    (processFieldCorrelations envN frZeroOne 10 [(S "x", .num 0)] []).outcome =
      .fieldSkipped :=
  ⟨rfl, by decide, by decide⟩

/-- Claim C9 (amended).  For an enabled field correlation rule whose
stored JSON parses and whose match conditions pass, the rule is skipped
at the field-resolution step iff the resolved correlation-field value is
falsy (`undefined`, `null`, `false`, `0`, or `""`), and skipped as
not-expected iff the value is truthy but its string form is not in
`expectedValues`; a truthy value whose string form is in `expectedValues`
proceeds to the debounce check and state processing. -/
theorem c9_field_resolution (env : CondEnv) (rule : FieldCorrelationRule)
    (now : Int) (payload : Payload) (store : List FieldCorrState)
    (tree : CondTree) (expected : List Str)
    (hmc : rule.matchConditions = .ok tree)
    (hmatch : evaluateConditionGroup env tree payload = true)
    (hev : rule.expectedValues = .ok expected) :
    ((processFieldCorrelations env rule now payload store).outcome = .fieldSkipped ↔
      jsTruthy (getNestedValueFC payload rule.correlationField) = false) ∧
    ((processFieldCorrelations env rule now payload store).outcome = .valueNotExpected ↔
      (jsTruthy (getNestedValueFC payload rule.correlationField) = true ∧
        jsToString (getNestedValueFC payload rule.correlationField) ∉ expected)) ∧
    ((processFieldCorrelations env rule now payload store).outcome = .debounced ∨
        (processFieldCorrelations env rule now payload store).outcome = .processed ↔
      (jsTruthy (getNestedValueFC payload rule.correlationField) = true ∧
        jsToString (getNestedValueFC payload rule.correlationField) ∈ expected)) := by
  have hb : (processFieldCorrelations env rule now payload store).outcome =
      (processFieldRuleBody env rule now payload store).outcome := rfl
  rw [hb]
  unfold processFieldRuleBody
  rw [hmc]
  simp only [hmatch, if_true]
  by_cases ht : jsTruthy (getNestedValueFC payload rule.correlationField) = true
  · rw [hev]
    simp only [ht, if_true]
    by_cases hm : jsToString (getNestedValueFC payload rule.correlationField) ∈ expected
    · simp only [hm, if_true]
      rcases hlt : rule.lastTriggered with _ | t <;>
        simp only [hlt] <;> split_ifs <;> simp_all
    · simp only [hm, if_false]
      simp [ht, hm]
  · simp only [Bool.not_eq_true] at ht
    simp [ht]

/-- Witness for `c9_field_resolution`: `frZeroOne` with payload `{x: 1}`
(truthy, `"1"` expected) yields a non-skipped outcome. -/
theorem c9_field_resolution_witness :
    frZeroOne.matchConditions = .ok matchAll ∧
    evaluateConditionGroup envN matchAll [(S "x", .num 1)] = true ∧
    frZeroOne.expectedValues = .ok [S "0", S "1"] ∧
    ¬((processFieldCorrelations envN frZeroOne 10 [(S "x", .num 1)] []).outcome =
        .fieldSkipped) :=
  ⟨rfl, rfl, rfl,
   fun h =>
     absurd
       ((c9_field_resolution envN frZeroOne 10 [(S "x", .num 1)] [] matchAll
           [S "0", S "1"] rfl rfl rfl).1.mp h)
       (by decide)⟩

/-- Members of an updated state table come from the original table, with
the update applied when the id matches. -/
theorem updFState_mem {st : List FieldCorrState} {i : Nat}
    {f : FieldCorrState → FieldCorrState} {s' : FieldCorrState}
    (hs' : s' ∈ updFState st i f) :
    ∃ s ∈ st, s' = if s.id = i then f s else s := by
  simp only [updFState, List.mem_map] at hs'
  obtain ⟨s, hs, heq⟩ := hs'
  exact ⟨s, hs, heq.symm⟩

/-- Unfolding equation: the join branch of `processCorrelationValue`. -/
theorem processCorrelationValue_join (rule : FieldCorrelationRule) (now : Int)
    (v : Str) (payload : Payload) (expected : List Str)
    (store : List FieldCorrState) (ex : FieldCorrState)
    (hfind : store.find? (fun s =>
        s.ruleId = rule.rid ∧ s.status = .waiting ∧ now < s.expiresAt) = some ex)
    (hnot : (ex.receivedValues.find? (fun q => q.1 = v)).isSome = false) :
    processCorrelationValue rule now v payload expected store =
      (if ex.pendingValues.filter (fun w => w ≠ v) = [] then
        completeCorrelationField rule now
          (updFState store ex.id (joinUpdate ex v payload)) ex.id
      else (updFState store ex.id (joinUpdate ex v payload), [], rule)) := by
  unfold processCorrelationValue
  rw [hfind]
  simp only [hnot, Bool.false_eq_true, if_false]
  rfl

/-- Unfolding equation: the create branch of `processCorrelationValue`. -/
theorem processCorrelationValue_create (rule : FieldCorrelationRule) (now : Int)
    (v : Str) (payload : Payload) (expected : List Str)
    (store : List FieldCorrState)
    (hnone : store.find? (fun s =>
        s.ruleId = rule.rid ∧ s.status = .waiting ∧ now < s.expiresAt) = none) :
    processCorrelationValue rule now v payload expected store =
      (if expected.filter (fun w => w ≠ v) = [] then
        completeCorrelationField rule now
          (store ++ [createdState rule now v payload expected store])
          (freshFId store)
      else (store ++ [createdState rule now v payload expected store], [], rule)) := by
  unfold processCorrelationValue
  rw [hnone]
  rfl

/-- `completeCorrelationField` never changes a state's `pendingValues`,
`receivedValues` or `ruleId`. -/
theorem completeCorrelationField_fields (rule : FieldCorrelationRule) (now : Int)
    (st : List FieldCorrState) (i : Nat) :
    ∀ s' ∈ (completeCorrelationField rule now st i).1,
      ∃ s ∈ st, s'.pendingValues = s.pendingValues ∧
        s'.receivedValues = s.receivedValues ∧ s'.ruleId = s.ruleId := by
  have step2 : ∀ (f g : FieldCorrState → FieldCorrState),
      (∀ t, (f t).pendingValues = t.pendingValues ∧
        (f t).receivedValues = t.receivedValues ∧ (f t).ruleId = t.ruleId) →
      (∀ t, (g t).pendingValues = t.pendingValues ∧
        (g t).receivedValues = t.receivedValues ∧ (g t).ruleId = t.ruleId) →
      ∀ s' ∈ updFState (updFState st i f) i g,
        ∃ s ∈ st, s'.pendingValues = s.pendingValues ∧
          s'.receivedValues = s.receivedValues ∧ s'.ruleId = s.ruleId := by
    intro f g hf hg s' hs'
    obtain ⟨s1, hs1, rfl⟩ := updFState_mem hs'
    obtain ⟨s, hs, rfl⟩ := updFState_mem hs1
    refine ⟨s, hs, ?_⟩
    by_cases h : s.id = i
    · simp only [h, if_true]
      by_cases h2 : (f s).id = i <;> simp [h2, hf s, hg (f s)]
    · simp [h]
  unfold completeCorrelationField
  split
  · intro s' hs'; exact ⟨s', hs', rfl, rfl, rfl⟩
  · split
    · intro s' hs'; exact ⟨s', hs', rfl, rfl, rfl⟩
    · split
      · split
        · exact step2 (fun t => { t with status := .completed })
            (fun t => { t with actionTriggered := false })
            (fun t => ⟨rfl, rfl, rfl⟩) (fun t => ⟨rfl, rfl, rfl⟩)
        · exact step2 (fun t => { t with status := .completed })
            (fun t => { t with actionTriggered := true })
            (fun t => ⟨rfl, rfl, rfl⟩) (fun t => ⟨rfl, rfl, rfl⟩)
      · exact step2 (fun t => { t with status := .completed })
          (fun t => { t with actionTriggered := false })
          (fun t => ⟨rfl, rfl, rfl⟩) (fun t => ⟨rfl, rfl, rfl⟩)

/-- Joining a new value preserves the invariant. -/
theorem fieldInv_update (expected : List Str) (v : Str) (payload : Payload)
    (pending : List Str) (received : List (Str × Payload))
    (hv : v ∈ expected)
    (hinv : ∀ x, (x ∈ pending ∨ x ∈ received.map Prod.fst) ↔ x ∈ expected) :
    ∀ x, (x ∈ pending.filter (fun w => w ≠ v) ∨
          x ∈ (received ++ [(v, payload)]).map Prod.fst) ↔ x ∈ expected := by
  intro x
  rw [List.map_append]
  constructor
  · rintro (hmem | hmem)
    · exact (hinv x).mp (Or.inl (List.mem_of_mem_filter hmem))
    · rcases List.mem_append.mp hmem with h | h
      · exact (hinv x).mp (Or.inr h)
      · rcases List.mem_singleton.mp h with rfl
        exact hv
  · intro hx2
    by_cases hxv : x = v
    · subst hxv
      exact Or.inr (List.mem_append.mpr (Or.inr (List.mem_singleton.mpr rfl)))
    · rcases (hinv x).mpr hx2 with h | h
      · exact Or.inl (List.mem_filter.mpr ⟨h, by simpa using hxv⟩)
      · exact Or.inr (List.mem_append.mpr (Or.inl h))

/-- Claim C7 (confirmed).  If the incoming field value is one of
`expectedValues` (the caller checks this before delegating) and every
state of the rule in the table satisfies
`pendingValues ∪ keys(receivedValues) = expectedValues`, then every state
of the rule after `processCorrelationValue` — whether it joined the open
state, created a fresh one, or completed — still satisfies it. -/
theorem c7_pending_received_invariant (rule : FieldCorrelationRule) (now : Int)
    (v : Str) (payload : Payload) (expected : List Str)
    (store : List FieldCorrState)
    (hv : v ∈ expected)
    (hstore : ∀ s ∈ store, s.ruleId = rule.rid → fieldInv expected s) :
    ∀ s' ∈ (processCorrelationValue rule now v payload expected store).1,
      s'.ruleId = rule.rid → fieldInv expected s' := by
  rcases hfind : store.find? (fun s =>
      s.ruleId = rule.rid ∧ s.status = .waiting ∧ now < s.expiresAt) with _ | ex
  · -- create branch
    rw [processCorrelationValue_create rule now v payload expected store hfind]
    have hstore1 : ∀ s' ∈ store ++ [createdState rule now v payload expected store],
        s'.ruleId = rule.rid → fieldInv expected s' := by
      intro s' hs' hrid
      rcases List.mem_append.mp hs' with h | h
      · exact hstore s' h hrid
      · rcases List.mem_singleton.mp h with rfl
        intro x
        show (x ∈ expected.filter (fun w => w ≠ v) ∨
            x ∈ ([(v, payload)] : List (Str × Payload)).map Prod.fst) ↔ x ∈ expected
        constructor
        · rintro (hmem | hmem)
          · exact List.mem_of_mem_filter hmem
          · rcases List.mem_singleton.mp hmem with rfl
            exact hv
        · intro hx2
          by_cases hxv : x = v
          · subst hxv
            exact Or.inr (List.mem_singleton.mpr rfl)
          · exact Or.inl (List.mem_filter.mpr ⟨hx2, by simpa using hxv⟩)
    split
    · intro s' hs' hrid
      obtain ⟨s, hsmem, hpend, hrecv, hrid2⟩ :=
        completeCorrelationField_fields rule now _ (freshFId store) s' hs'
      have := hstore1 s hsmem (hrid2 ▸ hrid)
      intro x
      rw [hpend, hrecv]
      exact this x
    · exact hstore1
  · -- existing-state branch
    have hexmem : ex ∈ store := List.mem_of_find?_eq_some hfind
    have hexpred := List.find?_some hfind
    have hexrid : ex.ruleId = rule.rid := by
      simp only [decide_eq_true_eq] at hexpred
      exact hexpred.1
    have hexinv : fieldInv expected ex := hstore ex hexmem hexrid
    rcases hrecv : (ex.receivedValues.find? (fun q => q.1 = v)).isSome with _ | _
    · -- value not yet received: join branch
      rw [processCorrelationValue_join rule now v payload expected store ex hfind hrecv]
      have hstore1 : ∀ s' ∈ updFState store ex.id (joinUpdate ex v payload),
          s'.ruleId = rule.rid → fieldInv expected s' := by
        intro s' hs' hrid
        obtain ⟨s, hs, rfl⟩ := updFState_mem hs'
        by_cases h : s.id = ex.id
        · simp only [h, if_true]
          intro x
          exact fieldInv_update expected v payload ex.pendingValues
            ex.receivedValues hv hexinv x
        · simp only [h, if_false] at hrid ⊢
          exact hstore s hs hrid
      split
      · intro s' hs' hrid
        obtain ⟨s, hsmem, hpend, hrecv2, hrid2⟩ :=
          completeCorrelationField_fields rule now _ ex.id s' hs'
        have := hstore1 s hsmem (hrid2 ▸ hrid)
        intro x
        rw [hpend, hrecv2]
        exact this x
      · exact hstore1
    · -- value already present: the table is unchanged
      have : processCorrelationValue rule now v payload expected store =
          (store, [], rule) := by
        unfold processCorrelationValue
        rw [hfind]
        simp [hrecv]
      rw [this]
      exact hstore

/-- Witness for `c7_pending_received_invariant`: the open state of `frAB`
(which satisfies the invariant for `expectedValues = ["a","b"]`) still
satisfies it after the missing value `"b"` arrives and completes the
correlation. -/
theorem c7_pending_received_invariant_witness :
    (S "b") ∈ [S "a", S "b"] ∧
    (∀ s' ∈ (processCorrelationValue frAB 20 (S "b") [(S "x", .str (S "b"))]
        [S "a", S "b"] openA).1,
      s'.ruleId = frAB.rid → fieldInv [S "a", S "b"] s') :=
  ⟨by decide,
   c7_pending_received_invariant frAB 20 (S "b") [(S "x", .str (S "b"))]
     [S "a", S "b"] openA (by decide)
     (by
       intro s hs hrid
       rcases List.mem_singleton.mp hs with rfl
       intro x
       constructor
       · rintro (h | h) <;> simp_all [openA]
       · intro h
         simp only [openA] at h ⊢
         rcases List.mem_cons.mp h with rfl | h2
         · right; simp
         · left; simpa using h2)⟩

/-- One `all_matches` loop iteration: the loop always continues, the
status evolves by the failing/fired-success classification, and the rule
is recorded as examined. -/
theorem stepRule_allMatches (env : CondEnv) (payload : Payload) (now : Int)
    (st : LoopState) (r : StoredRule) :
    (stepRule .allMatches env payload now st r).2 = true ∧
    (stepRule .allMatches env payload now st r).1.status =
      (if ruleFailing env payload now r then .failed
       else if ruleFiredSuccess env payload now r then
         (if st.status = .failed then .failed else .success)
       else st.status) ∧
    (stepRule .allMatches env payload now st r).1.examined =
      st.examined ++ [r.id] := by
  obtain ⟨rid, rc, rdb, rlt, ra, rd⟩ := r
  rcases rc with e | tree
  · refine ⟨rfl, ?_, rfl⟩
    simp [stepRule, ruleCatch, ruleFailing, ruleThrows, ruleFiredSuccess,
      ruleFired, ruleMatches, Except.isOk, Except.toBool]
  · by_cases heval : evaluateRule env tree payload
    · by_cases hdeb : isRuleDebounced rdb rlt now
      · refine ⟨?_, ?_, ?_⟩ <;>
          simp [stepRule, heval, hdeb, ruleFailing, ruleThrows,
            ruleFiredSuccess, ruleFired, ruleMatches, Except.isOk,
            Except.toBool]
      · rcases ra with e | u
        · refine ⟨?_, ?_, ?_⟩ <;>
            simp [stepRule, ruleCatch, heval, hdeb, ruleFailing, ruleThrows,
              ruleFiredSuccess, ruleFired, ruleMatches, Except.isOk,
              Except.toBool]
        · rcases rd with e | results
          · refine ⟨?_, ?_, ?_⟩ <;>
              simp [stepRule, ruleCatch, heval, hdeb, ruleFailing, ruleThrows,
                ruleFiredSuccess, ruleFired, ruleMatches, Except.isOk,
                Except.toBool]
          · by_cases hs : results.any (fun x => x.success)
            · refine ⟨?_, ?_, ?_⟩ <;>
                simp [stepRule, heval, hdeb, hs, ruleFailing, ruleThrows,
                  ruleFiredSuccess, ruleFired, ruleMatches, Except.isOk,
                  Except.toBool]
              by_cases hfail : st.status = WStatus.failed <;> simp [hfail]
            · refine ⟨?_, ?_, ?_⟩ <;>
                simp [stepRule, heval, hdeb, hs, ruleFailing, ruleThrows,
                  ruleFiredSuccess, ruleFired, ruleMatches, Except.isOk,
                  Except.toBool]
    · refine ⟨?_, ?_, ?_⟩ <;>
        simp [stepRule, heval, ruleFailing, ruleThrows, ruleFiredSuccess,
          ruleFired, ruleMatches, Except.isOk, Except.toBool]

/-- Status of the whole `all_matches` loop: `failed` is absorbing. -/
theorem runRules_allMatches_status (env : CondEnv) (payload : Payload)
    (now : Int) :
    ∀ (rules : List StoredRule) (st : LoopState),
      (runRules .allMatches env payload now st rules).status =
        (if rules.any (ruleFailing env payload now) then .failed
         else if st.status = .failed then .failed
         else if rules.any (ruleFiredSuccess env payload now) then .success
         else st.status) := by
  intro rules
  induction rules with
  | nil =>
    intro st
    by_cases hs : st.status = WStatus.failed <;> simp [runRules, hs]
  | cons r rs ih =>
    intro st
    obtain ⟨hcont, hstat, -⟩ := stepRule_allMatches env payload now st r
    rcases hstep : stepRule .allMatches env payload now st r with ⟨st', cont⟩
    rw [hstep] at hcont hstat
    simp only at hcont hstat
    subst hcont
    simp only [runRules, hstep]
    rw [ih st', hstat]
    by_cases hf : ruleFailing env payload now r <;>
      by_cases hg : ruleFiredSuccess env payload now r <;>
      by_cases hs : st.status = WStatus.failed <;>
      simp [List.any_cons, hf, hg, hs]

/-- The `all_matches` loop examines every rule (it never breaks). -/
theorem runRules_allMatches_examined (env : CondEnv) (payload : Payload)
    (now : Int) :
    ∀ (rules : List StoredRule) (st : LoopState),
      (runRules .allMatches env payload now st rules).examined =
        st.examined ++ rules.map (fun r => r.id) := by
  intro rules
  induction rules with
  | nil => intro st; simp [runRules]
  | cons r rs ih =>
    intro st
    obtain ⟨hcont, -, hex⟩ := stepRule_allMatches env payload now st r
    rcases hstep : stepRule .allMatches env payload now st r with ⟨st', cont⟩
    rw [hstep] at hcont hex
    simp only at hcont hex
    subst hcont
    simp only [runRules, hstep]
    rw [ih st', hex]
    simp

/-- Status of the `first_match` loop: determined by the first relevant
rule (parse error or match). -/
theorem runRules_firstMatch_status (env : CondEnv) (payload : Payload)
    (now : Int) :
    ∀ (rules : List StoredRule) (st : LoopState), st.status = .noMatch →
      (runRules .firstMatch env payload now st rules).status =
        (match rules.find? (ruleRelevant env payload) with
         | none => .noMatch
         | some r => firstMatchStatus now r) := by
  intro rules
  induction rules with
  | nil => intro st hst; simpa [runRules, List.find?] using hst
  | cons r rs ih =>
    intro st hst
    by_cases hrel : ruleRelevant env payload r
    · rw [List.find?_cons_of_pos _ hrel]
      rcases hc : r.conditions with e | tree
      · simp [runRules, stepRule, ruleCatch, hc, firstMatchStatus]
      · have heval : evaluateRule env tree payload = true := by
          simpa [ruleRelevant, hc] using hrel
        by_cases hdeb : isRuleDebounced r.debounceMs r.lastTriggered now
        · simp [runRules, stepRule, hc, heval, hdeb, firstMatchStatus]
        · rcases ha : r.actions with e | u
          · simp [runRules, stepRule, ruleCatch, hc, heval, hdeb, ha,
              firstMatchStatus]
          · rcases hd : r.dispatch with e | results
            · simp [runRules, stepRule, ruleCatch, hc, heval, hdeb, ha, hd,
                firstMatchStatus]
            · by_cases hs : results.any (fun x => x.success)
              · simp [runRules, stepRule, hc, heval, hdeb, ha, hd, hs,
                  firstMatchStatus, hst]
              · simp [runRules, stepRule, hc, heval, hdeb, ha, hd, hs,
                  firstMatchStatus]
    · rw [List.find?_cons_of_neg _ hrel]
      have heval : ∃ tree, r.conditions = .ok tree ∧
          evaluateRule env tree payload = false := by
        rcases hc : r.conditions with e | tree
        · exact absurd (by simp [ruleRelevant, hc]) hrel
        · refine ⟨tree, rfl, ?_⟩
          by_cases hev : evaluateRule env tree payload
          · exact absurd (by simp [ruleRelevant, hc, hev]) hrel
          · simpa using hev
      obtain ⟨tree, hc, hev⟩ := heval
      have hstep : stepRule .firstMatch env payload now st r =
          ({ st with examined := st.examined ++ [r.id] }, true) := by
        simp [stepRule, hc, hev]
      simp only [runRules, hstep]
      exact ih _ hst

/-- Post-processing never changes the status or the examined list. -/
theorem processWebhookRules_proj (mode : MatchMode) (env : CondEnv)
    (payload : Payload) (now : Int) (rules : List StoredRule) :
    (processWebhookRules mode env payload now rules).status =
      (runRules mode env payload now initLoopState rules).status ∧
    (processWebhookRules mode env payload now rules).examined =
      (runRules mode env payload now initLoopState rules).examined ∧
    (processWebhookRules mode env payload now rules).errorMessage =
      (runRules mode env payload now initLoopState rules).errorMessage := by
  rcases mode with _ | _
  · exact ⟨rfl, rfl, rfl⟩
  · have hz : processWebhookRules .allMatches env payload now rules =
        (if (runRules .allMatches env payload now initLoopState
              rules).triggeredRules ≠ [] then
          { runRules .allMatches env payload now initLoopState rules with
              ruleTriggered := some (List.intercalate (S ",")
                (runRules .allMatches env payload now
                  initLoopState rules).triggeredRules) }
         else runRules .allMatches env payload now initLoopState rules) := rfl
    rw [hz]
    split <;> exact ⟨rfl, rfl, rfl⟩

/-- Claim C2 (counterexample).  The claim says the webhook-level status
is `success` if at least one channel dispatch for a fired rule succeeded,
and `skipped` if the only matching rule(s) were debounced, in both match
modes.  In `all_matches` mode: with `ruleGood` (dispatch succeeds) before
`ruleBad` (dispatch fails), a dispatch succeeded and `notificationSent`
is true, yet the status is `failed`; and with only the debounced
`ruleDebounced` matching, the status is `no_match`, not `skipped`. -/
theorem c2_status_aggregation_cex :
    (processWebhookRules .allMatches envN [] 0 [ruleGood, ruleBad]).notificationSent
      = true ∧
    (processWebhookRules .allMatches envN [] 0 [ruleGood, ruleBad]).status
      = .failed ∧
    (processWebhookRules .allMatches envN [] 50 [ruleDebounced]).status
      = .noMatch := by
  decide

/-- Claim C2 (amended).  In `first_match` mode the claimed mapping holds,
scoped to the first relevant rule: `no_match` when no enabled rule's
conditions match (and none errors), and otherwise — for the first rule
that errors or matches — `failed` on a parse error, `skipped` when
debounced, `success` when at least one of its channel dispatches
succeeded, `failed` when all failed.  In `all_matches` mode `failed` is
absorbing: the status is `failed` iff some rule threw or fired with all
dispatches failing, `success` iff no such rule exists and some fired rule
had a successful dispatch, and `no_match` otherwise — in particular
debounced-only matches yield `no_match`, never `skipped`. -/
theorem c2_status_aggregation (env : CondEnv) (payload : Payload) (now : Int)
    (rules : List StoredRule) :
    ((processWebhookRules .allMatches env payload now rules).status =
       (if rules.any (ruleFailing env payload now) then .failed
        else if rules.any (ruleFiredSuccess env payload now) then .success
        else .noMatch)) ∧
    ((processWebhookRules .firstMatch env payload now rules).status =
       (match rules.find? (ruleRelevant env payload) with
        | none => .noMatch
        | some r => firstMatchStatus now r)) := by
  constructor
  · rw [(processWebhookRules_proj .allMatches env payload now rules).1]
    rw [runRules_allMatches_status env payload now rules initLoopState]
    simp [initLoopState]
  · rw [(processWebhookRules_proj .firstMatch env payload now rules).1]
    exact runRules_firstMatch_status env payload now rules initLoopState rfl

/-- Claim C4 (counterexample).  The claim says a rule whose stored
configuration fails to parse is skipped and evaluation of the remaining
rules continues in every match mode.  In `first_match` mode the loop
breaks on the error: with the corrupt rule first, the always-matching
`ruleGood` behind it is never examined and nothing fires. -/
theorem c4_rule_error_isolation_cex :
    (processWebhookRules .firstMatch envN [] 0 [ruleCorrupt, ruleGood]).examined
      = [S "r1"] ∧
    (processWebhookRules .firstMatch envN [] 0 [ruleCorrupt, ruleGood]).triggeredRules
      = [] := by
  decide

/-- Claim C4 (amended).  In `all_matches` mode a rule parse/evaluation
error is contained: every rule of the webhook is examined regardless of
errors.  In `first_match` mode the loop stops at the erroring rule: only
that rule is examined, the webhook status is `failed`, and the error text
is reported as the result's error message. -/
theorem c4_rule_error_isolation (env : CondEnv) (payload : Payload) (now : Int) :
    (∀ rules : List StoredRule,
      (processWebhookRules .allMatches env payload now rules).examined =
        rules.map (fun r => r.id)) ∧
    (∀ (e : Str) (r : StoredRule) (rest : List StoredRule),
      r.conditions = .error e →
      (processWebhookRules .firstMatch env payload now (r :: rest)).examined
          = [r.id] ∧
      (processWebhookRules .firstMatch env payload now (r :: rest)).status
          = .failed ∧
      (processWebhookRules .firstMatch env payload now (r :: rest)).errorMessage
          = e) := by
  constructor
  · intro rules
    rw [(processWebhookRules_proj .allMatches env payload now rules).2.1]
    rw [runRules_allMatches_examined env payload now rules initLoopState]
    simp [initLoopState]
  · intro e r rest hc
    have hrun : runRules .firstMatch env payload now initLoopState (r :: rest) =
        { initLoopState with
            examined := [r.id], status := .failed, errorMessage := e,
            ruleTriggered := some r.id } := by
      simp [runRules, stepRule, ruleCatch, hc, initLoopState, appendErr]
    refine ⟨?_, ?_, ?_⟩
    · rw [(processWebhookRules_proj .firstMatch env payload now (r :: rest)).2.1,
        hrun]
    · rw [(processWebhookRules_proj .firstMatch env payload now (r :: rest)).1,
        hrun]
    · rw [(processWebhookRules_proj .firstMatch env payload now
        (r :: rest)).2.2, hrun]

/-- Witness for `c4_rule_error_isolation` at the corrupt rule followed by
a healthy rule. -/
theorem c4_rule_error_isolation_witness :
    ruleCorrupt.conditions = Except.error (S "bad json") ∧
    (processWebhookRules .firstMatch envN [] 0 [ruleCorrupt, ruleGood]).status
      = .failed :=
  ⟨rfl,
   ((c4_rule_error_isolation envN [] 0).2 (S "bad json") ruleCorrupt [ruleGood]
      rfl).2.1⟩

/-- Flattening a map of singletons. -/
theorem flatten_map_singleton {γ β : Type} (l : List γ) (f : γ → β) :
    (l.map (fun x => [f x])).flatten = l.map f := by
  induction l with
  | nil => rfl
  | cons a l ih => simp [ih]

/-- Flattening a map of empties. -/
theorem flatten_map_nil {γ β : Type} (l : List γ) :
    (l.map (fun _ => ([] : List β))).flatten = ([] : List β) := by
  induction l with
  | nil => rfl
  | cons a l ih => simp [ih]

/-- In a table with distinct ids, an id is among the ids of the filtered
table iff the (unique) state carrying it passes the filter. -/
theorem mem_filtered_ids {α : Type} (idOf : α → Nat) (p : α → Bool)
    (st : List α) (hnd : (st.map idOf).Nodup) (s : α) (hs : s ∈ st) :
    (idOf s ∈ (st.filter p).map idOf) ↔ p s = true := by
  constructor
  · intro h
    obtain ⟨t, ht, heq⟩ := List.mem_map.mp h
    have ht' : t ∈ st := List.mem_of_mem_filter ht
    have hpt : p t := List.of_mem_filter ht
    have : t = s := List.inj_on_of_nodup_map hnd ht' hs heq
    exact this ▸ hpt
  · intro h
    exact List.mem_map.mpr ⟨s, List.mem_filter.mpr ⟨hs, h⟩, rfl⟩

/-- The ids of a filtered table inherit distinctness. -/
theorem filtered_ids_nodup {α : Type} (idOf : α → Nat) (p : α → Bool)
    (st : List α) (hnd : (st.map idOf).Nodup) :
    ((st.filter p).map idOf).Nodup :=
  hnd.sublist ((List.filter_sublist st).map idOf)

/-- A loop that runs a per-id state update and dispatch-emission body
over a snapshot with distinct keys equals a single pass over the table
(each key updated once) plus the concatenation of the per-key
emissions. -/
theorem foldl_state_dispatch {γ α β : Type} (key : γ → Nat) (idOf : α → Nat)
    (F : List α → Nat → List α × List β) (g : α → α) (E : Nat → List β)
    (hF : ∀ st i, F st i = (st.map (fun t => if idOf t = i then g t else t), E i))
    (hg : ∀ s, idOf (g s) = idOf s) :
    ∀ (l : List γ) (st : List α) (d : List β), (l.map key).Nodup →
      l.foldl (fun acc s => ((F acc.1 (key s)).1, acc.2 ++ (F acc.1 (key s)).2))
          (st, d) =
        (st.map (fun t => if idOf t ∈ l.map key then g t else t),
         d ++ (l.map (fun s => E (key s))).flatten) := by
  intro l
  induction l with
  | nil =>
    intro st d _
    simp
  | cons a l ih =>
    intro st d hnd
    have ha : key a ∉ l.map key := (List.nodup_cons.mp hnd).1
    have hnd' : (l.map key).Nodup := (List.nodup_cons.mp hnd).2
    simp only [List.foldl_cons]
    rw [hF st (key a)]
    rw [ih _ _ hnd']
    dsimp only
    congr 1
    · rw [List.map_map]
      apply List.map_congr_left
      intro s hs
      by_cases h : idOf s = key a
      · simp [h, hg s, ha]
        intro x hx hkey
        exact absurd (hkey ▸ (List.mem_map.mpr ⟨x, hx, rfl⟩ : key x ∈ l.map key))
          ha
      · simp [h]
    · simp

/-- Canonical form of the cross-entity `completeCorrelation`: one row
update plus (when the actions parse) one success dispatch. -/
theorem completeCorrelation_eq (env : CorrEnv) (st : List CorrState) (i : Nat) :
    completeCorrelation env st i =
      (updState st i (completedUpdate env),
       if env.actionsParseOk then [(i, DKind.success)] else []) := by
  have comp : ∀ (f g : CorrState → CorrState), (∀ s, (f s).id = s.id) →
      updState (updState st i f) i g = updState st i (fun s => g (f s)) := by
    intro f g hf
    unfold updState
    rw [List.map_map]
    apply List.map_congr_left
    intro s _
    by_cases h : s.id = i
    · simp [Function.comp_apply, h, hf s]
    · simp [Function.comp_apply, h]
  unfold completeCorrelation
  rcases hpo : env.actionsParseOk with _ | _
  · simp only [Bool.false_eq_true, if_false]
    rw [comp (fun s => { s with status := .completed, targetSet := true })
      (fun s => { s with actionTriggered := false }) (fun s => rfl)]
    unfold updState completedUpdate
    congr 1
    apply List.map_congr_left
    intro s _
    by_cases h : s.id = i <;> simp [h, hpo]
  · rcases hdt : env.dispatchThrows with _ | _
    · simp only [if_true, Bool.false_eq_true, if_false]
      rw [comp (fun s => { s with status := .completed, targetSet := true })
        (fun s => { s with actionTriggered := true }) (fun s => rfl)]
      unfold updState completedUpdate
      congr 1
      apply List.map_congr_left
      intro s _
      by_cases h : s.id = i <;> simp [h, hpo, hdt]
    · simp only [if_true]
      rw [comp (fun s => { s with status := .completed, targetSet := true })
        (fun s => { s with actionTriggered := false }) (fun s => rfl)]
      unfold updState completedUpdate
      congr 1
      apply List.map_congr_left
      intro s _
      by_cases h : s.id = i <;> simp [h, hpo, hdt]

/-- Characterization of `processAsTargetWebhook` on a table with distinct
ids: every `waiting`, unexpired state is completed (none is spared), all
other rows are untouched, and — when the actions parse — one success
dispatch is recorded per completed state, in table order. -/
theorem processAsTargetWebhook_spec (env : CorrEnv) (now : Int)
    (store : List CorrState) (hnd : (store.map (fun s => s.id)).Nodup) :
    processAsTargetWebhook env now store =
      (store.map (fun s =>
         if s.status = .waiting ∧ now < s.expiresAt then completedUpdate env s
         else s),
       if env.actionsParseOk then
         (store.filter (fun s => s.status = .waiting ∧ now < s.expiresAt)).map
           (fun s => (s.id, DKind.success))
       else []) := by
  have hfold := foldl_state_dispatch (fun s : CorrState => s.id)
    (fun s : CorrState => s.id) (completeCorrelation env) (completedUpdate env)
    (fun i => if env.actionsParseOk then [(i, DKind.success)] else [])
    (fun st i => completeCorrelation_eq env st i) (fun s => rfl)
    (store.filter (fun s => s.status = .waiting ∧ now < s.expiresAt))
    store [] (filtered_ids_nodup _ _ store hnd)
  have hshow : processAsTargetWebhook env now store =
      (store.filter (fun s => s.status = .waiting ∧ now < s.expiresAt)).foldl
        (fun acc s => ((completeCorrelation env acc.1 s.id).1,
          acc.2 ++ (completeCorrelation env acc.1 s.id).2)) (store, []) := rfl
  rw [hshow, hfold]
  congr 1
  · apply List.map_congr_left
    intro s hs
    have hiff := mem_filtered_ids (fun s : CorrState => s.id)
      (fun s => decide (s.status = .waiting ∧ now < s.expiresAt)) store hnd s hs
    by_cases h : s.status = .waiting ∧ now < s.expiresAt
    · rw [if_pos (hiff.mpr (by simp [h])), if_pos h]
    · rw [if_neg (fun hm => h (by simpa using hiff.mp hm)), if_neg h]
  · rcases hpo : env.actionsParseOk with _ | _
    · simp only [Bool.false_eq_true, if_false]
      rw [flatten_map_nil]
      rfl
    · simp only [if_true]
      rw [flatten_map_singleton]
      rfl

/-- Claim C1 (counterexample).  The claim says that when a target event
arrives while several waiting, unexpired states exist for a rule, only
the oldest is completed and the others remain waiting.  `twoWaiting`
holds two waiting unexpired states (ids 1 and 2, received at times 0 and
5); the engine completes both and dispatches the success action twice —
state 2 does not remain waiting. -/
theorem c1_target_completes_all_cex :
    (processAsTargetWebhook ceEnv 10 twoWaiting).1.map (fun s => s.status) =
      [.completed, .completed] ∧
    (processAsTargetWebhook ceEnv 10 twoWaiting).2 =
      [(1, .success), (2, .success)] := by
  decide

/-- Claim C1 (amended).  When an event arrives at a rule's target
webhook, the engine completes every waiting, unexpired state of the rule
(in table order) and dispatches the success action once per such state;
rows that are not waiting or are expired are untouched, and no waiting
unexpired state remains waiting. -/
theorem c1_target_completes_every_waiting (env : CorrEnv) (now : Int)
    (store : List CorrState) (hnd : (store.map (fun s => s.id)).Nodup) :
    (processAsTargetWebhook env now store).1 =
      store.map (fun s =>
        if s.status = .waiting ∧ now < s.expiresAt then completedUpdate env s
        else s) ∧
    (processAsTargetWebhook env now store).2 =
      (if env.actionsParseOk then
        (store.filter (fun s => s.status = .waiting ∧ now < s.expiresAt)).map
          (fun s => (s.id, DKind.success))
       else []) ∧
    ∀ s' ∈ (processAsTargetWebhook env now store).1,
      ¬(s'.status = .waiting ∧ now < s'.expiresAt) := by
  have hspec := processAsTargetWebhook_spec env now store hnd
  refine ⟨?_, ?_, ?_⟩
  · rw [hspec]
  · rw [hspec]
  · intro s' hs'
    rw [hspec] at hs'
    obtain ⟨s, -, rfl⟩ := List.mem_map.mp hs'
    by_cases h : s.status = .waiting ∧ now < s.expiresAt
    · rw [if_pos h]
      rintro ⟨hw, -⟩
      exact CStatus.noConfusion (hw.symm.trans rfl : CStatus.waiting = CStatus.completed)
    · rw [if_neg h]
      exact h

/-- Witness for `c1_target_completes_every_waiting` on the two-state
table. -/
theorem c1_target_completes_every_waiting_witness :
    (twoWaiting.map (fun s => s.id)).Nodup ∧
    (∀ s' ∈ (processAsTargetWebhook ceEnv 10 twoWaiting).1,
      ¬(s'.status = .waiting ∧ (10 : Int) < s'.expiresAt)) :=
  ⟨by decide,
   (c1_target_completes_every_waiting ceEnv 10 twoWaiting (by decide)).2.2⟩

/-- Splitting a dispatch count over an append. -/
theorem dispatchCount_append (ds1 ds2 : List (Nat × DKind)) (i : Nat) :
    dispatchCount (ds1 ++ ds2) i = dispatchCount ds1 i + dispatchCount ds2 i := by
  simp [dispatchCount, List.filter_append]

/-- A zero dispatch count means no entry carries the id. -/
theorem dispatchCount_eq_zero_iff (ds : List (Nat × DKind)) (i : Nat) :
    dispatchCount ds i = 0 ↔ ∀ d ∈ ds, d.1 ≠ i := by
  simp only [dispatchCount, List.length_eq_zero, List.filter_eq_nil_iff]
  constructor
  · intro h d hd
    have := h d hd
    simpa using this
  · intro h d hd
    simpa using h d hd

/-- Dispatch count of a per-state emission list. -/
theorem dispatchCount_map_pair {γ : Type} (l : List γ) (key : γ → Nat)
    (k : DKind) (i : Nat) :
    dispatchCount (l.map (fun s => (key s, k))) i = (l.map key).count i := by
  induction l with
  | nil => rfl
  | cons a l ih =>
    by_cases h : key a = i <;>
      simp [dispatchCount, List.count_cons, h] at ih ⊢ <;> omega

/-- Every element is bounded by the running maximum. -/
theorem le_foldr_max (l : List Nat) : ∀ x ∈ l, x ≤ l.foldr max 0 := by
  induction l with
  | nil => intro x hx; cases hx
  | cons a l ih =>
    intro x hx
    rcases List.mem_cons.mp hx with rfl | hx
    · simp [List.foldr_cons, le_max_left]
    · exact le_trans (ih x hx) (by simp [List.foldr_cons, le_max_right])

/-- The autoincrement id of a cross-entity state is fresh. -/
theorem freshId_not_mem (store : List CorrState) :
    freshId store ∉ store.map (fun s => s.id) := by
  intro h
  have := le_foldr_max (store.map (fun s => s.id)) _ h
  unfold freshId at this
  omega

/-- The autoincrement id of a field state is fresh. -/
theorem freshFId_not_mem (store : List FieldCorrState) :
    freshFId store ∉ store.map (fun s => s.id) := by
  intro h
  have := le_foldr_max (store.map (fun s => s.id)) _ h
  unfold freshFId at this
  omega

/-- Composing two updates of the same id. -/
theorem map_upd_upd {α : Type} (idOf : α → Nat) (i : Nat) (f g : α → α)
    (hf : ∀ s, idOf (f s) = idOf s) (st : List α) :
    (st.map (fun s => if idOf s = i then f s else s)).map
        (fun s => if idOf s = i then g s else s) =
      st.map (fun s => if idOf s = i then g (f s) else s) := by
  rw [List.map_map]
  apply List.map_congr_left
  intro s _
  by_cases h : idOf s = i
  · simp [Function.comp_apply, h, hf s]
  · simp [Function.comp_apply, h]

/-- Canonical form of the cross-entity sweep body. -/
theorem timeoutOne_eq (env : CorrEnv) (st : List CorrState) (i : Nat) :
    timeoutOne env st i =
      (updState st i (timeoutUpdate env),
       if env.hasTimeoutActions && env.timeoutParseOk then [(i, DKind.timeout)]
       else []) := by
  unfold timeoutOne
  rcases hta : env.hasTimeoutActions with _ | _
  · simp only [Bool.false_eq_true, if_false, Bool.false_and]
    unfold updState timeoutUpdate
    congr 1
    apply List.map_congr_left
    intro s _
    by_cases h : s.id = i <;> simp [h, hta]
  · rcases hpo : env.timeoutParseOk with _ | _
    · simp only [if_true, Bool.false_eq_true, if_false, Bool.true_and, hpo]
      unfold updState timeoutUpdate
      congr 1
      apply List.map_congr_left
      intro s _
      by_cases h : s.id = i <;> simp [h, hta, hpo]
    · rcases hdt : env.dispatchThrows with _ | _
      · simp only [if_true, Bool.false_eq_true, if_false, Bool.true_and, hpo]
        have := map_upd_upd (fun s : CorrState => s.id) i
          (fun t => { t with status := .timeout })
          (fun t => { t with actionTriggered := true }) (fun s => rfl) st
        unfold updState
        rw [this]
        congr 1
        apply List.map_congr_left
        intro s _
        by_cases h : s.id = i <;> simp [h, timeoutUpdate, hta, hpo, hdt]
      · simp only [if_true, Bool.true_and, hpo]
        unfold updState timeoutUpdate
        congr 1
        apply List.map_congr_left
        intro s _
        by_cases h : s.id = i <;> simp [h, hta, hpo, hdt]

/-- Characterization of the cross-entity sweep on a table with distinct
ids. -/
theorem cleanupExpiredCorrelations_spec (env : CorrEnv) (now : Int)
    (store : List CorrState) (hnd : (store.map (fun s => s.id)).Nodup) :
    cleanupExpiredCorrelations env now store =
      (store.map (fun s =>
         if s.status = .waiting ∧ s.expiresAt ≤ now then timeoutUpdate env s
         else s),
       if env.hasTimeoutActions && env.timeoutParseOk then
         (store.filter (fun s => s.status = .waiting ∧ s.expiresAt ≤ now)).map
           (fun s => (s.id, DKind.timeout))
       else []) := by
  have hfold := foldl_state_dispatch (fun s : CorrState => s.id)
    (fun s : CorrState => s.id) (timeoutOne env) (timeoutUpdate env)
    (fun i => if env.hasTimeoutActions && env.timeoutParseOk
      then [(i, DKind.timeout)] else [])
    (fun st i => timeoutOne_eq env st i) (fun s => rfl)
    (store.filter (fun s => s.status = .waiting ∧ s.expiresAt ≤ now))
    store [] (filtered_ids_nodup _ _ store hnd)
  have hshow : cleanupExpiredCorrelations env now store =
      (store.filter (fun s => s.status = .waiting ∧ s.expiresAt ≤ now)).foldl
        (fun acc s => ((timeoutOne env acc.1 s.id).1,
          acc.2 ++ (timeoutOne env acc.1 s.id).2)) (store, []) := rfl
  rw [hshow, hfold]
  congr 1
  · apply List.map_congr_left
    intro s hs
    have hiff := mem_filtered_ids (fun s : CorrState => s.id)
      (fun s => decide (s.status = .waiting ∧ s.expiresAt ≤ now)) store hnd s hs
    by_cases h : s.status = .waiting ∧ s.expiresAt ≤ now
    · rw [if_pos (hiff.mpr (by simp [h])), if_pos h]
    · rw [if_neg (fun hm => h (by simpa using hiff.mp hm)), if_neg h]
  · rcases hta : env.hasTimeoutActions && env.timeoutParseOk with _ | _
    · simp only [Bool.false_eq_true, if_false]
      rw [flatten_map_nil]
      rfl
    · simp only [if_true]
      rw [flatten_map_singleton]
      rfl

/-- Canonical form of the field sweep body. -/
theorem timeoutOneF_eq (rule : FieldCorrelationRule) (st : List FieldCorrState)
    (i : Nat) :
    timeoutOneF rule st i =
      (updFState st i (timeoutUpdateF rule),
       if rule.hasTimeoutActions && rule.timeoutParseOk then [(i, DKind.timeout)]
       else []) := by
  unfold timeoutOneF
  rcases hta : rule.hasTimeoutActions with _ | _
  · simp only [Bool.false_eq_true, if_false, Bool.false_and]
    unfold updFState timeoutUpdateF
    congr 1
    apply List.map_congr_left
    intro s _
    by_cases h : s.id = i <;> simp [h, hta]
  · rcases hpo : rule.timeoutParseOk with _ | _
    · simp only [if_true, Bool.false_eq_true, if_false, Bool.true_and, hpo]
      unfold updFState timeoutUpdateF
      congr 1
      apply List.map_congr_left
      intro s _
      by_cases h : s.id = i <;> simp [h, hta, hpo]
    · rcases hdt : rule.dispatchThrows with _ | _
      · simp only [if_true, Bool.false_eq_true, if_false, Bool.true_and, hpo]
        have := map_upd_upd (fun s : FieldCorrState => s.id) i
          (fun t => { t with status := .timeout })
          (fun t => { t with actionTriggered := true }) (fun s => rfl) st
        unfold updFState
        rw [this]
        congr 1
        apply List.map_congr_left
        intro s _
        by_cases h : s.id = i <;> simp [h, timeoutUpdateF, hta, hpo, hdt]
      · simp only [if_true, Bool.true_and, hpo]
        unfold updFState timeoutUpdateF
        congr 1
        apply List.map_congr_left
        intro s _
        by_cases h : s.id = i <;> simp [h, hta, hpo, hdt]

/-- Characterization of the field sweep on a table with distinct ids. -/
theorem cleanupExpiredStates_spec (rule : FieldCorrelationRule) (now : Int)
    (store : List FieldCorrState) (hnd : (store.map (fun s => s.id)).Nodup) :
    cleanupExpiredStates rule now store =
      (store.map (fun s =>
         if s.status = .waiting ∧ s.expiresAt ≤ now then timeoutUpdateF rule s
         else s),
       if rule.hasTimeoutActions && rule.timeoutParseOk then
         (store.filter (fun s => s.status = .waiting ∧ s.expiresAt ≤ now)).map
           (fun s => (s.id, DKind.timeout))
       else []) := by
  have hfold := foldl_state_dispatch (fun s : FieldCorrState => s.id)
    (fun s : FieldCorrState => s.id) (timeoutOneF rule) (timeoutUpdateF rule)
    (fun i => if rule.hasTimeoutActions && rule.timeoutParseOk
      then [(i, DKind.timeout)] else [])
    (fun st i => timeoutOneF_eq rule st i) (fun s => rfl)
    (store.filter (fun s => s.status = .waiting ∧ s.expiresAt ≤ now))
    store [] (filtered_ids_nodup _ _ store hnd)
  have hshow : cleanupExpiredStates rule now store =
      (store.filter (fun s => s.status = .waiting ∧ s.expiresAt ≤ now)).foldl
        (fun acc s => ((timeoutOneF rule acc.1 s.id).1,
          acc.2 ++ (timeoutOneF rule acc.1 s.id).2)) (store, []) := rfl
  rw [hshow, hfold]
  congr 1
  · apply List.map_congr_left
    intro s hs
    have hiff := mem_filtered_ids (fun s : FieldCorrState => s.id)
      (fun s => decide (s.status = .waiting ∧ s.expiresAt ≤ now)) store hnd s hs
    by_cases h : s.status = .waiting ∧ s.expiresAt ≤ now
    · rw [if_pos (hiff.mpr (by simp [h])), if_pos h]
    · rw [if_neg (fun hm => h (by simpa using hiff.mp hm)), if_neg h]
  · rcases hta : rule.hasTimeoutActions && rule.timeoutParseOk with _ | _
    · simp only [Bool.false_eq_true, if_false]
      rw [flatten_map_nil]
      rfl
    · simp only [if_true]
      rw [flatten_map_singleton]
      rfl

/-- `completeCorrelationField` with the guard already set is a no-op: the
`actionTriggered` check prevents a second dispatch. -/
theorem completeCorrelationField_guard (rule : FieldCorrelationRule) (now : Int)
    (st : List FieldCorrState) (i : Nat) (s0 : FieldCorrState)
    (hfind : st.find? (fun t => t.id = i) = some s0)
    (hflag : s0.actionTriggered = true) :
    completeCorrelationField rule now st i = (st, [], rule) := by
  unfold completeCorrelationField
  rw [hfind]
  simp [hflag]

/-- Canonical form of `completeCorrelationField` when the guard is not
yet set. -/
theorem completeCorrelationField_spec (rule : FieldCorrelationRule) (now : Int)
    (st : List FieldCorrState) (i : Nat) (s0 : FieldCorrState)
    (hfind : st.find? (fun t => t.id = i) = some s0)
    (hflag : s0.actionTriggered = false) :
    completeCorrelationField rule now st i =
      (updFState st i (fun t =>
         { t with
             status := .completed,
             actionTriggered := rule.successParseOk && !rule.dispatchThrows }),
       if rule.successParseOk then [(i, DKind.success)] else [],
       if rule.successParseOk && !rule.dispatchThrows
       then { rule with lastTriggered := some now } else rule) := by
  unfold completeCorrelationField
  rw [hfind]
  simp only [hflag, Bool.false_eq_true, if_false]
  rcases hpo : rule.successParseOk with _ | _
  · simp only [Bool.false_eq_true, if_false, Bool.false_and]
    have := map_upd_upd (fun s : FieldCorrState => s.id) i
      (fun t => { t with status := .completed })
      (fun t => { t with actionTriggered := false }) (fun s => rfl) st
    unfold updFState
    rw [this]
  · rcases hdt : rule.dispatchThrows with _ | _
    · simp only [if_true, Bool.false_eq_true, if_false, Bool.true_and,
        Bool.not_false]
      have := map_upd_upd (fun s : FieldCorrState => s.id) i
        (fun t => { t with status := .completed })
        (fun t => { t with actionTriggered := true }) (fun s => rfl) st
      unfold updFState
      rw [this]
    · simp only [if_true, Bool.true_and, Bool.not_true, Bool.false_eq_true,
        if_false]
      have := map_upd_upd (fun s : FieldCorrState => s.id) i
        (fun t => { t with status := .completed })
        (fun t => { t with actionTriggered := false }) (fun s => rfl) st
      unfold updFState
      rw [this]

/-- A list of length at most one has at most one member. -/
theorem length_le_one_unique {β : Type} {l : List β} (h : l.length ≤ 1)
    {a b : β} (ha : a ∈ l) (hb : b ∈ l) : a = b := by
  match l with
  | [] => cases ha
  | [x] => rw [List.mem_singleton.mp ha, List.mem_singleton.mp hb]
  | x :: y :: t => simp at h

/-- Dispatch count of a single entry. -/
theorem dispatchCount_single (j : Nat) (k : DKind) (i : Nat) :
    dispatchCount [(j, k)] i = if j = i then 1 else 0 := by
  by_cases h : j = i <;> simp [dispatchCount, h]

/-- Bulk completion/timeout step: updating every state satisfying a
waiting-only predicate to a fixed non-waiting status, optionally
emitting one dispatch per updated state, preserves the engine
invariant. -/
theorem engineInv_bulk {α : Type} (idOf : α → Nat) (statusOf : α → CStatus)
    (st : List α) (ds : List (Nat × DKind))
    (h : EngineInv idOf statusOf st ds)
    (p : α → Prop) [DecidablePred p] (g : α → α) (k : DKind) (ns : CStatus)
    (emit : Bool)
    (hgid : ∀ s, idOf (g s) = idOf s)
    (hgstat : ∀ s, statusOf (g s) = ns)
    (hns : ns ≠ .waiting)
    (hks : k = DKind.success → ns = .completed)
    (hkt : k = DKind.timeout → ns = .timeout)
    (hp : ∀ s, p s → statusOf s = .waiting) :
    EngineInv idOf statusOf
      (st.map (fun s => if p s then g s else s))
      (ds ++ (if emit then (st.filter (fun s => decide (p s))).map
                (fun s => (idOf s, k))
              else [])) := by
  obtain ⟨hnd, hw, hd, hc⟩ := h
  have hids : (st.map (fun s => if p s then g s else s)).map idOf =
      st.map idOf := by
    rw [List.map_map]
    apply List.map_congr_left
    intro s _
    by_cases hps : p s
    · simp only [Function.comp_apply, if_pos hps, hgid]
    · simp only [Function.comp_apply, if_neg hps]
  refine ⟨?_, ?_, ?_, ?_⟩
  · rw [hids]
    exact hnd
  · intro s' hs' hwait
    obtain ⟨s, hs, rfl⟩ := List.mem_map.mp hs'
    by_cases hps : p s
    · rw [if_pos hps, hgstat] at hwait
      exact absurd hwait hns
    · rw [if_neg hps] at hwait ⊢
      rw [dispatchCount_append, hw s hs hwait]
      rcases hemit : emit with _ | _
      · rfl
      · rw [if_pos rfl, dispatchCount_map_pair]
        have hnm : idOf s ∉ (st.filter (fun t => decide (p t))).map idOf := by
          intro hmem
          have := (mem_filtered_ids idOf (fun t => decide (p t)) st hnd s
            hs).mp hmem
          exact hps (of_decide_eq_true this)
        rw [List.count_eq_zero.mpr hnm]
  · intro d hd2
    rcases List.mem_append.mp hd2 with hmem | hmem
    · obtain ⟨t, ht, hid, hsc, hst⟩ := hd d hmem
      have hpt : ¬ p t := by
        intro hpt
        have hwt := hp t hpt
        rcases hk2 : d.2 with _ | _
        · rw [hsc hk2] at hwt
          exact CStatus.noConfusion hwt
        · rw [hst hk2] at hwt
          exact CStatus.noConfusion hwt
      refine ⟨t, List.mem_map.mpr ⟨t, ht, if_neg hpt⟩, hid, hsc, hst⟩
    · rcases hemit : emit with _ | _
      · rw [hemit] at hmem
        simp only [Bool.false_eq_true, if_false] at hmem
        cases hmem
      · rw [hemit, if_pos rfl] at hmem
        obtain ⟨t, htf, rfl⟩ := List.mem_map.mp hmem
        have ht : t ∈ st := (List.mem_filter.mp htf).1
        have hpt : p t := of_decide_eq_true ((List.mem_filter.mp htf).2)
        refine ⟨g t, List.mem_map.mpr ⟨t, ht, if_pos hpt⟩, hgid t,
          fun hk => (hgstat t).trans (hks hk),
          fun hk => (hgstat t).trans (hkt hk)⟩
  · intro i
    rw [dispatchCount_append]
    rcases hemit : emit with _ | _
    · simp only [Bool.false_eq_true, if_false]
      simpa [dispatchCount] using hc i
    · rw [if_pos rfl, dispatchCount_map_pair]
      by_cases hmemi : i ∈ (st.filter (fun t => decide (p t))).map idOf
      · obtain ⟨t, htf, hti⟩ := List.mem_map.mp hmemi
        have ht : t ∈ st := (List.mem_filter.mp htf).1
        have hpt : p t := of_decide_eq_true ((List.mem_filter.mp htf).2)
        have hzero : dispatchCount ds i = 0 := by
          rw [← hti]
          exact hw t ht (hp t hpt)
        have hcount :
            ((st.filter (fun t => decide (p t))).map idOf).count i ≤ 1 :=
          List.nodup_iff_count_le_one.mp (filtered_ids_nodup idOf _ st hnd) i
        omega
      · rw [List.count_eq_zero.mpr hmemi]
        simpa using hc i

/-- Appending a fresh `waiting` state preserves the engine invariant. -/
theorem engineInv_append_fresh {α : Type} (idOf : α → Nat)
    (statusOf : α → CStatus) (st : List α) (ds : List (Nat × DKind)) (new : α)
    (h : EngineInv idOf statusOf st ds)
    (hfresh : idOf new ∉ st.map idOf) :
    EngineInv idOf statusOf (st ++ [new]) ds := by
  obtain ⟨hnd, hw, hd, hc⟩ := h
  refine ⟨?_, ?_, ?_, hc⟩
  · rw [List.map_append]
    refine List.Nodup.append hnd (List.nodup_singleton _) ?_
    intro a ha hb
    rw [List.mem_singleton.mp hb] at ha
    exact hfresh ha
  · intro s hs hwait
    rcases List.mem_append.mp hs with hmem | hmem
    · exact hw s hmem hwait
    · rw [List.mem_singleton.mp hmem]
      rw [dispatchCount_eq_zero_iff]
      intro d hd2 hdi
      obtain ⟨t, ht, hti, -, -⟩ := hd d hd2
      exact hfresh (hdi ▸ hti ▸ List.mem_map.mpr ⟨t, ht, rfl⟩)
  · intro d hd2
    obtain ⟨t, ht, hti, hsc, hst⟩ := hd d hd2
    exact ⟨t, List.mem_append.mpr (Or.inl ht), hti, hsc, hst⟩

/-- Completing the states carrying one id (all of them `waiting`),
optionally emitting one success dispatch for that id, preserves the
engine invariant. -/
theorem engineInv_complete_one {α : Type} (idOf : α → Nat)
    (statusOf : α → CStatus) (st : List α) (ds : List (Nat × DKind))
    (i : Nat) (g : α → α) (emit : Bool)
    (h : EngineInv idOf statusOf st ds)
    (hgid : ∀ s, idOf (g s) = idOf s)
    (hgstat : ∀ s, statusOf (g s) = .completed)
    (hwait : ∀ s ∈ st, idOf s = i → statusOf s = .waiting)
    (hex : emit = true → ∃ s ∈ st, idOf s = i) :
    EngineInv idOf statusOf
      (st.map (fun t => if idOf t = i then g t else t))
      (ds ++ (if emit then [(i, DKind.success)] else [])) := by
  obtain ⟨hnd, hw, hd, hc⟩ := h
  have hids : (st.map (fun t => if idOf t = i then g t else t)).map idOf =
      st.map idOf := by
    rw [List.map_map]
    apply List.map_congr_left
    intro s _
    by_cases hps : idOf s = i
    · simp only [Function.comp_apply, if_pos hps, hgid]
    · simp only [Function.comp_apply, if_neg hps]
  refine ⟨?_, ?_, ?_, ?_⟩
  · rw [hids]
    exact hnd
  · intro s' hs' hwait'
    obtain ⟨s, hs, rfl⟩ := List.mem_map.mp hs'
    by_cases hps : idOf s = i
    · rw [if_pos hps, hgstat] at hwait'
      exact CStatus.noConfusion hwait'
    · rw [if_neg hps] at hwait' ⊢
      rw [dispatchCount_append, hw s hs hwait']
      rcases hemit : emit with _ | _
      · rfl
      · rw [if_pos rfl, dispatchCount_single,
          if_neg (fun hcon : i = idOf s => hps hcon.symm)]
  · intro d hd2
    rcases List.mem_append.mp hd2 with hmem | hmem
    · obtain ⟨t, ht, hid, hsc, hst⟩ := hd d hmem
      have hpt : ¬ idOf t = i := by
        intro hpt
        have hwt := hwait t ht hpt
        rcases hk2 : d.2 with _ | _
        · rw [hsc hk2] at hwt
          exact CStatus.noConfusion hwt
        · rw [hst hk2] at hwt
          exact CStatus.noConfusion hwt
      refine ⟨t, List.mem_map.mpr ⟨t, ht, if_neg hpt⟩, hid, hsc, hst⟩
    · rcases hemit : emit with _ | _
      · rw [hemit] at hmem
        simp only [Bool.false_eq_true, if_false] at hmem
        cases hmem
      · rw [hemit, if_pos rfl, List.mem_singleton] at hmem
        obtain ⟨s0, hs0, hs0i⟩ := hex hemit
        refine ⟨g s0, List.mem_map.mpr ⟨s0, hs0, if_pos hs0i⟩, ?_, ?_, ?_⟩
        · rw [hgid, hs0i, hmem]
        · intro _
          exact hgstat s0
        · intro hk
          rw [hmem] at hk
          exact DKind.noConfusion hk
  · intro i'
    rw [dispatchCount_append]
    rcases hemit : emit with _ | _
    · simp only [Bool.false_eq_true, if_false]
      simpa [dispatchCount] using hc i'
    · rw [if_pos rfl]
      obtain ⟨s0, hs0, hs0i⟩ := hex hemit
      by_cases hii : i' = i
      · have hzero : dispatchCount ds i' = 0 := by
          rw [hii, ← hs0i]
          exact hw s0 hs0 (hwait s0 hs0 hs0i)
        have hone : dispatchCount [(i, DKind.success)] i' ≤ 1 := by
          rw [dispatchCount_single]
          split <;> omega
        omega
      · have hzero : dispatchCount [(i, DKind.success)] i' = 0 := by
          rw [dispatchCount_single, if_neg (fun hcon : i = i' => hii hcon.symm)]
        rw [hzero]
        simpa using hc i'

/-- An update that changes neither ids nor statuses preserves the
engine invariant. -/
theorem engineInv_neutral {α : Type} (idOf : α → Nat)
    (statusOf : α → CStatus) (st : List α) (ds : List (Nat × DKind))
    (i : Nat) (g : α → α)
    (h : EngineInv idOf statusOf st ds)
    (hgid : ∀ s, idOf (g s) = idOf s)
    (hgstat : ∀ s, statusOf (g s) = statusOf s) :
    EngineInv idOf statusOf
      (st.map (fun t => if idOf t = i then g t else t)) ds := by
  obtain ⟨hnd, hw, hd, hc⟩ := h
  have hids : (st.map (fun t => if idOf t = i then g t else t)).map idOf =
      st.map idOf := by
    rw [List.map_map]
    apply List.map_congr_left
    intro s _
    by_cases hps : idOf s = i
    · simp only [Function.comp_apply, if_pos hps, hgid]
    · simp only [Function.comp_apply, if_neg hps]
  refine ⟨?_, ?_, ?_, hc⟩
  · rw [hids]
    exact hnd
  · intro s' hs' hwait'
    obtain ⟨s, hs, rfl⟩ := List.mem_map.mp hs'
    by_cases hps : idOf s = i
    · rw [if_pos hps] at hwait' ⊢
      rw [hgstat] at hwait'
      rw [hgid]
      exact hw s hs hwait'
    · rw [if_neg hps] at hwait' ⊢
      exact hw s hs hwait'
  · intro d hd2
    obtain ⟨t, ht, hid, hsc, hst⟩ := hd d hd2
    by_cases hpt : idOf t = i
    · refine ⟨g t, List.mem_map.mpr ⟨t, ht, if_pos hpt⟩, (hgid t).trans hid,
        fun hk => (hgstat t).trans (hsc hk),
        fun hk => (hgstat t).trans (hst hk)⟩
    · exact ⟨t, List.mem_map.mpr ⟨t, ht, if_neg hpt⟩, hid, hsc, hst⟩

/-- Each cross-entity engine operation preserves the invariant. -/
theorem corrInv_step (env : CorrEnv) (acc : List CorrState × List (Nat × DKind))
    (op : CorrOp) (h : CorrInv acc.1 acc.2) :
    CorrInv (corrStep env acc op).1 (corrStep env acc op).2 := by
  obtain ⟨st, ds⟩ := acc
  cases op with
  | sourceEvent now =>
    show CorrInv (st ++ [⟨freshId st, now, now + env.timeWindowMs, .waiting,
      false, false⟩]) ds
    exact engineInv_append_fresh (fun s : CorrState => s.id)
      (fun s : CorrState => s.status) st ds _ h (freshId_not_mem st)
  | targetEvent now =>
    show CorrInv (processAsTargetWebhook env now st).1
      (ds ++ (processAsTargetWebhook env now st).2)
    rw [processAsTargetWebhook_spec env now st h.1]
    exact engineInv_bulk (fun s : CorrState => s.id)
      (fun s : CorrState => s.status) st ds h
      (fun s => s.status = CStatus.waiting ∧ now < s.expiresAt)
      (completedUpdate env) DKind.success CStatus.completed env.actionsParseOk
      (fun s => rfl) (fun s => rfl) (fun hcon => CStatus.noConfusion hcon)
      (fun _ => rfl) (fun hk => DKind.noConfusion hk) (fun s hs => hs.1)
  | sweep now =>
    show CorrInv (cleanupExpiredCorrelations env now st).1
      (ds ++ (cleanupExpiredCorrelations env now st).2)
    rw [cleanupExpiredCorrelations_spec env now st h.1]
    exact engineInv_bulk (fun s : CorrState => s.id)
      (fun s : CorrState => s.status) st ds h
      (fun s => s.status = CStatus.waiting ∧ s.expiresAt ≤ now)
      (timeoutUpdate env) DKind.timeout CStatus.timeout
      (env.hasTimeoutActions && env.timeoutParseOk)
      (fun s => rfl) (fun s => rfl) (fun hcon => CStatus.noConfusion hcon)
      (fun hk => DKind.noConfusion hk) (fun _ => rfl) (fun s hs => hs.1)

/-- The invariant propagates through the cross-entity operation fold. -/
theorem corrInv_foldl (env : CorrEnv) (ops : List CorrOp) :
    ∀ acc, CorrInv acc.1 acc.2 →
      CorrInv ((ops.foldl (corrStep env) acc)).1
        ((ops.foldl (corrStep env) acc)).2 := by
  induction ops with
  | nil => exact fun acc h => h
  | cons op ops ih =>
    intro acc h
    rw [List.foldl_cons]
    exact ih _ (corrInv_step env acc op h)

/-- Every cross-entity history satisfies the invariant. -/
theorem corrInv_run (env : CorrEnv) (ops : List CorrOp) :
    CorrInv (corrRun env ops).1 (corrRun env ops).2 :=
  corrInv_foldl env ops ([], [])
    ⟨List.nodup_nil, fun s hs => absurd hs (List.not_mem_nil s),
     fun d hd => absurd hd (List.not_mem_nil d), fun i => Nat.zero_le 1⟩

/-- The field sweep preserves the invariant. -/
theorem fieldTraceInv_sweep (rule : FieldCorrelationRule) (now : Int)
    (st : List FieldCorrState) (ds : List (Nat × DKind))
    (h : FieldTraceInv st ds) :
    FieldTraceInv (cleanupExpiredStates rule now st).1
      (ds ++ (cleanupExpiredStates rule now st).2) := by
  rw [cleanupExpiredStates_spec rule now st h.1]
  exact engineInv_bulk (fun s : FieldCorrState => s.id)
    (fun s : FieldCorrState => s.status) st ds h
    (fun s => s.status = CStatus.waiting ∧ s.expiresAt ≤ now)
    (timeoutUpdateF rule) DKind.timeout CStatus.timeout
    (rule.hasTimeoutActions && rule.timeoutParseOk)
    (fun s => rfl) (fun s => rfl) (fun hcon => CStatus.noConfusion hcon)
    (fun hk => DKind.noConfusion hk) (fun _ => rfl) (fun s hs => hs.1)

/-- The field `completeCorrelation` preserves the invariant when every
state carrying the completed id is waiting. -/
theorem fieldTraceInv_ccf (rule : FieldCorrelationRule) (now : Int)
    (st : List FieldCorrState) (ds : List (Nat × DKind)) (i : Nat)
    (h : FieldTraceInv st ds)
    (hwait : ∀ s ∈ st, s.id = i → s.status = CStatus.waiting) :
    FieldTraceInv (completeCorrelationField rule now st i).1
      (ds ++ (completeCorrelationField rule now st i).2.1) := by
  rcases hfind : st.find? (fun t => t.id = i) with _ | s0
  · have heq : completeCorrelationField rule now st i = (st, [], rule) := by
      unfold completeCorrelationField
      rw [hfind]
    rw [heq]
    show FieldTraceInv st (ds ++ [])
    rw [List.append_nil]
    exact h
  · rcases hflag : s0.actionTriggered with _ | _
    · rw [completeCorrelationField_spec rule now st i s0 hfind hflag]
      have hex : rule.successParseOk = true → ∃ s ∈ st, s.id = i := by
        intro _
        have hp0 := List.find?_some hfind
        exact ⟨s0, List.mem_of_find?_eq_some hfind, of_decide_eq_true hp0⟩
      exact engineInv_complete_one (fun s : FieldCorrState => s.id)
        (fun s : FieldCorrState => s.status) st ds i
        (fun t =>
           { t with
               status := .completed,
               actionTriggered := rule.successParseOk && !rule.dispatchThrows })
        rule.successParseOk h (fun s => rfl) (fun s => rfl) hwait hex
    · rw [completeCorrelationField_guard rule now st i s0 hfind hflag]
      show FieldTraceInv st (ds ++ [])
      rw [List.append_nil]
      exact h

/-- `processCorrelationValue` preserves the invariant. -/
theorem fieldTraceInv_pcv (rule : FieldCorrelationRule) (now : Int)
    (v : Str) (payload : Payload) (expected : List Str)
    (st : List FieldCorrState) (ds : List (Nat × DKind))
    (h : FieldTraceInv st ds) :
    FieldTraceInv (processCorrelationValue rule now v payload expected st).1
      (ds ++ (processCorrelationValue rule now v payload expected st).2.1) := by
  rcases hfind : st.find? (fun s =>
      s.ruleId = rule.rid ∧ s.status = CStatus.waiting ∧ now < s.expiresAt)
    with _ | ex
  · rw [processCorrelationValue_create rule now v payload expected st hfind]
    have hinv1 : FieldTraceInv
        (st ++ [createdState rule now v payload expected st]) ds :=
      engineInv_append_fresh (fun s : FieldCorrState => s.id)
        (fun s : FieldCorrState => s.status) st ds _ h (freshFId_not_mem st)
    by_cases hpend : expected.filter (fun w => w ≠ v) = []
    · rw [if_pos hpend]
      refine fieldTraceInv_ccf rule now _ ds (freshFId st) hinv1 ?_
      intro s hs hid
      rcases List.mem_append.mp hs with hmem | hmem
      · exfalso
        apply freshFId_not_mem st
        rw [← hid]
        exact List.mem_map.mpr ⟨s, hmem, rfl⟩
      · rw [List.mem_singleton.mp hmem]
        rfl
    · rw [if_neg hpend]
      show FieldTraceInv (st ++ [createdState rule now v payload expected st])
        (ds ++ [])
      rw [List.append_nil]
      exact hinv1
  · by_cases hrep : (ex.receivedValues.find? (fun q => q.1 = v)).isSome = true
    · have heq : processCorrelationValue rule now v payload expected st =
          (st, [], rule) := by
        unfold processCorrelationValue
        rw [hfind]
        dsimp only
        rw [if_pos hrep]
      rw [heq]
      show FieldTraceInv st (ds ++ [])
      rw [List.append_nil]
      exact h
    · have hrep' : (ex.receivedValues.find? (fun q => q.1 = v)).isSome = false :=
        Bool.eq_false_iff.mpr hrep
      rw [processCorrelationValue_join rule now v payload expected st ex hfind
        hrep']
      have hinv1 : FieldTraceInv (updFState st ex.id (joinUpdate ex v payload))
          ds :=
        engineInv_neutral (fun s : FieldCorrState => s.id)
          (fun s : FieldCorrState => s.status) st ds ex.id
          (joinUpdate ex v payload) h (fun s => rfl) (fun s => rfl)
      by_cases hpend : ex.pendingValues.filter (fun w => w ≠ v) = []
      · rw [if_pos hpend]
        refine fieldTraceInv_ccf rule now _ ds ex.id hinv1 ?_
        intro s hs hid
        obtain ⟨t, ht, rfl⟩ := updFState_mem hs
        have hexmem : ex ∈ st := List.mem_of_find?_eq_some hfind
        have hp1 := List.find?_some hfind
        have hexw : ex.status = CStatus.waiting :=
          (of_decide_eq_true hp1 : ex.ruleId = rule.rid ∧
            ex.status = CStatus.waiting ∧ now < ex.expiresAt).2.1
        by_cases hti : t.id = ex.id
        · rw [if_pos hti]
          have hte : t = ex := List.inj_on_of_nodup_map h.1 ht hexmem hti
          show t.status = CStatus.waiting
          rw [hte]
          exact hexw
        · rw [if_neg hti] at hid
          exact absurd hid hti
      · rw [if_neg hpend]
        show FieldTraceInv (updFState st ex.id (joinUpdate ex v payload))
          (ds ++ [])
        rw [List.append_nil]
        exact hinv1

/-- The rule-loop body either leaves the table and dispatch list alone
or hands over to `processCorrelationValue`. -/
theorem processFieldRuleBody_cases (env : CondEnv) (rule : FieldCorrelationRule)
    (now : Int) (payload : Payload) (st : List FieldCorrState) :
    (processFieldRuleBody env rule now payload st =
       ⟨st, [], rule, (processFieldRuleBody env rule now payload st).outcome⟩) ∨
    (∃ v expected, processFieldRuleBody env rule now payload st =
       ⟨(processCorrelationValue rule now v payload expected st).1,
        (processCorrelationValue rule now v payload expected st).2.1,
        (processCorrelationValue rule now v payload expected st).2.2,
        FieldOutcome.processed⟩) := by
  unfold processFieldRuleBody
  rcases hmc : rule.matchConditions with e | tree
  · exact Or.inl rfl
  · dsimp only
    rcases heval : evaluateConditionGroup env tree payload with _ | _
    · exact Or.inl rfl
    · rcases htr : jsTruthy (getNestedValueFC payload rule.correlationField)
        with _ | _
      · exact Or.inl rfl
      · rcases hev : rule.expectedValues with e | ev
        · exact Or.inl rfl
        · dsimp only
          by_cases hmem :
              jsToString (getNestedValueFC payload rule.correlationField) ∈ ev
          · rw [if_pos hmem]
            by_cases hdb : rule.debounceMs > 0
            · rw [if_pos hdb]
              rcases hlt : rule.lastTriggered with _ | t
              · exact Or.inr ⟨_, _, rfl⟩
              · dsimp only
                by_cases hrec : now - t < rule.debounceMs
                · rw [if_pos hrec]
                  exact Or.inl rfl
                · rw [if_neg hrec]
                  exact Or.inr ⟨_, _, rfl⟩
            · rw [if_neg hdb]
              exact Or.inr ⟨_, _, rfl⟩
          · rw [if_neg hmem]
            exact Or.inl rfl

/-- The rule-loop body preserves the invariant. -/
theorem fieldTraceInv_body (env : CondEnv) (rule : FieldCorrelationRule)
    (now : Int) (payload : Payload) (st : List FieldCorrState)
    (ds : List (Nat × DKind)) (h : FieldTraceInv st ds) :
    FieldTraceInv (processFieldRuleBody env rule now payload st).store
      (ds ++ (processFieldRuleBody env rule now payload st).dispatches) := by
  rcases processFieldRuleBody_cases env rule now payload st with heq |
    ⟨v, expected, heq⟩
  · rw [heq]
    show FieldTraceInv st (ds ++ [])
    rw [List.append_nil]
    exact h
  · rw [heq]
    exact fieldTraceInv_pcv rule now v payload expected st ds h

/-- Each field-engine operation preserves the invariant. -/
theorem fieldTraceInv_step (env : CondEnv)
    (acc : FieldCorrelationRule × List FieldCorrState × List (Nat × DKind))
    (op : FieldOp) (h : FieldTraceInv acc.2.1 acc.2.2) :
    FieldTraceInv (fieldStep env acc op).2.1 (fieldStep env acc op).2.2 := by
  obtain ⟨rule, st, ds⟩ := acc
  cases op with
  | fieldEvent now payload =>
    show FieldTraceInv
      (cleanupExpiredStates (processFieldRuleBody env rule now payload st).rule
        now (processFieldRuleBody env rule now payload st).store).1
      (ds ++ ((processFieldRuleBody env rule now payload st).dispatches ++
        (cleanupExpiredStates (processFieldRuleBody env rule now payload st).rule
          now (processFieldRuleBody env rule now payload st).store).2))
    rw [← List.append_assoc]
    exact fieldTraceInv_sweep _ now _ _
      (fieldTraceInv_body env rule now payload st ds h)
  | fsweep now =>
    show FieldTraceInv (cleanupExpiredStates rule now st).1
      (ds ++ (cleanupExpiredStates rule now st).2)
    exact fieldTraceInv_sweep rule now st ds h

/-- The invariant propagates through the field operation fold. -/
theorem fieldTraceInv_foldl (env : CondEnv) (ops : List FieldOp) :
    ∀ acc, FieldTraceInv acc.2.1 acc.2.2 →
      FieldTraceInv ((ops.foldl (fieldStep env) acc)).2.1
        ((ops.foldl (fieldStep env) acc)).2.2 := by
  induction ops with
  | nil => exact fun acc h => h
  | cons op ops ih =>
    intro acc h
    rw [List.foldl_cons]
    exact ih _ (fieldTraceInv_step env acc op h)

/-- Every field-correlation history satisfies the invariant. -/
theorem fieldTraceInv_run (env : CondEnv) (rule0 : FieldCorrelationRule)
    (ops : List FieldOp) :
    FieldTraceInv (fieldRun env rule0 ops).2.1 (fieldRun env rule0 ops).2.2 :=
  fieldTraceInv_foldl env ops (rule0, [], [])
    ⟨List.nodup_nil, fun s hs => absurd hs (List.not_mem_nil s),
     fun d hd => absurd hd (List.not_mem_nil d), fun i => Nat.zero_le 1⟩

/-- Claim C3 (counterexample).  The claim says `actionTriggered` is
checked before firing for every correlation state.  The cross-entity
`completeCorrelation` never reads the flag: on `alreadyTriggered` — a
waiting, unexpired state whose `actionTriggered` is already `true` — a
target event dispatches the success action again.  The field engine, by
contrast, returns without dispatching on such a state (`fTriggered`). -/
theorem c3_no_guard_cex :
    (alreadyTriggered.map (fun s => s.actionTriggered) = [true]) ∧
    (processAsTargetWebhook ceEnv 10 alreadyTriggered).2 = [(1, DKind.success)] ∧
    completeCorrelationField frAB 5 fTriggered 1 = (fTriggered, [], frAB) :=
  ⟨rfl, rfl, rfl⟩

/-- Claim C3 (corrected).  The field-correlation `completeCorrelation`
does check `actionTriggered` before firing: on a state whose flag is set
it leaves the table, the dispatch list and the rule untouched.  The
cross-entity `completeCorrelation` performs no such check (see the
counterexample); nevertheless, in the sequential model both engines
dispatch at most once per state over any operation history, a state
still `waiting` has never been dispatched for, and no state ever
receives both a success and a timeout dispatch. -/
theorem c3_single_dispatch (rule : FieldCorrelationRule) (now : Int)
    (st : List FieldCorrState) (i : Nat) (s0 : FieldCorrState)
    (hfind : st.find? (fun t => t.id = i) = some s0)
    (hflag : s0.actionTriggered = true)
    (env : CorrEnv) (ops : List CorrOp)
    (fenv : CondEnv) (rule0 : FieldCorrelationRule) (fops : List FieldOp) :
    completeCorrelationField rule now st i = (st, [], rule) ∧
    (∀ j, dispatchCount (corrRun env ops).2 j ≤ 1) ∧
    (∀ s ∈ (corrRun env ops).1, s.status = CStatus.waiting →
      dispatchCount (corrRun env ops).2 s.id = 0) ∧
    (∀ j, ¬((j, DKind.success) ∈ (corrRun env ops).2 ∧
            (j, DKind.timeout) ∈ (corrRun env ops).2)) ∧
    (∀ j, dispatchCount (fieldRun fenv rule0 fops).2.2 j ≤ 1) ∧
    (∀ s ∈ (fieldRun fenv rule0 fops).2.1, s.status = CStatus.waiting →
      dispatchCount (fieldRun fenv rule0 fops).2.2 s.id = 0) ∧
    (∀ j, ¬((j, DKind.success) ∈ (fieldRun fenv rule0 fops).2.2 ∧
            (j, DKind.timeout) ∈ (fieldRun fenv rule0 fops).2.2)) := by
  have hcorr := corrInv_run env ops
  have hfield := fieldTraceInv_run fenv rule0 fops
  refine ⟨completeCorrelationField_guard rule now st i s0 hfind hflag,
    hcorr.2.2.2, hcorr.2.1, ?_, hfield.2.2.2, hfield.2.1, ?_⟩
  · intro j hboth
    have m1 : (j, DKind.success) ∈
        (corrRun env ops).2.filter (fun d => d.1 = j) :=
      List.mem_filter.mpr ⟨hboth.1, by simp⟩
    have m2 : (j, DKind.timeout) ∈
        (corrRun env ops).2.filter (fun d => d.1 = j) :=
      List.mem_filter.mpr ⟨hboth.2, by simp⟩
    have heq := length_le_one_unique (hcorr.2.2.2 j) m1 m2
    exact DKind.noConfusion (congrArg Prod.snd heq)
  · intro j hboth
    have m1 : (j, DKind.success) ∈
        (fieldRun fenv rule0 fops).2.2.filter (fun d => d.1 = j) :=
      List.mem_filter.mpr ⟨hboth.1, by simp⟩
    have m2 : (j, DKind.timeout) ∈
        (fieldRun fenv rule0 fops).2.2.filter (fun d => d.1 = j) :=
      List.mem_filter.mpr ⟨hboth.2, by simp⟩
    have heq := length_le_one_unique (hfield.2.2.2 j) m1 m2
    exact DKind.noConfusion (congrArg Prod.snd heq)

/-- Witness for C3 at concrete inputs. -/
theorem c3_single_dispatch_witness :
    completeCorrelationField frAB 5 fTriggered 1 = (fTriggered, [], frAB) ∧
    (∀ j, dispatchCount
      (corrRun ceEnv [CorrOp.sourceEvent 0, CorrOp.targetEvent 1]).2 j ≤ 1) ∧
    (∀ s ∈ (corrRun ceEnv [CorrOp.sourceEvent 0, CorrOp.targetEvent 1]).1,
      s.status = CStatus.waiting →
      dispatchCount
        (corrRun ceEnv [CorrOp.sourceEvent 0, CorrOp.targetEvent 1]).2 s.id
        = 0) ∧
    (∀ j, ¬((j, DKind.success) ∈
        (corrRun ceEnv [CorrOp.sourceEvent 0, CorrOp.targetEvent 1]).2 ∧
      (j, DKind.timeout) ∈
        (corrRun ceEnv [CorrOp.sourceEvent 0, CorrOp.targetEvent 1]).2)) ∧
    (∀ j, dispatchCount
      (fieldRun envN frZeroOne [FieldOp.fsweep 3]).2.2 j ≤ 1) ∧
    (∀ s ∈ (fieldRun envN frZeroOne [FieldOp.fsweep 3]).2.1,
      s.status = CStatus.waiting →
      dispatchCount (fieldRun envN frZeroOne [FieldOp.fsweep 3]).2.2 s.id
        = 0) ∧
    (∀ j, ¬((j, DKind.success) ∈
        (fieldRun envN frZeroOne [FieldOp.fsweep 3]).2.2 ∧
      (j, DKind.timeout) ∈
        (fieldRun envN frZeroOne [FieldOp.fsweep 3]).2.2)) :=
  c3_single_dispatch frAB 5 fTriggered 1
    ⟨1, 7, [(S "a", [(S "x", JValue.str (S "a"))])], [], 0, 100,
      CStatus.waiting, true⟩
    rfl rfl ceEnv [CorrOp.sourceEvent 0, CorrOp.targetEvent 1] envN frZeroOne
    [FieldOp.fsweep 3]

end SNR
